import Mathlib

/-!
# lustre_exporter: the `lctl` and `sysfs` metric sources

A shallow embedding of `sources/lctl.go` and `sources/sysfs.go`.

* Go `string` values are Lean `String`s (sequences of Unicode code points, i.e. valid UTF-8 text).
* An `error` result is `Option Error` (`none` is Go's `nil`); a Go function returning
  `(v, err)` returns the pair `(v, err)` here as well.
* `float64` values: every float the embedded code handles is either `-1` or the result of
  `strconv.ParseFloat` on an unsigned decimal digit string, hence an integer. `Float64` is
  therefore `Int`, each float being represented by the integer it denotes exactly.
* The three regular expressions of `lctl.go` are values of the type `Re`, and Go's
  `regexp` matching (leftmost match, preferring what a backtracking engine finds first) is
  `Re.run`, `FindStringSubmatch` and `FindAllStringSubmatch`.
-/

set_option exponentiation.threshold 1100

namespace LustreExporter

/-! ## Go runtime values -/

/-- Go `error` values: those built by `fmt.Errorf` / `errors.New` (a message) and the
`*strconv.NumError` of the `strconv` package (function, offending input, reason). -/
inductive Error where
  | errorString (msg : String)
  | numError (func : String) (num : String) (reason : String)
  deriving DecidableEq, Repr

deriving instance DecidableEq for Except

/-- The message of an error, Go's `err.Error()`. The quoting of `NumError.Num` is the plain
double-quoted form, which is what `strconv.Quote` gives on text without special characters. -/
def Error.text : Error → String
  | .errorString msg => msg
  | .numError func num reason => "strconv." ++ func ++ ": parsing \"" ++ num ++ "\": " ++ reason

/-- Integer-valued `float64` values, each represented by the integer it denotes. -/
abbrev Float64 := Int

/-! ## Character classes of RE2 syntax (all ASCII-only in Go) -/

/-- Perl class `\d`, which is `[0-9]`. -/
def isDigit (c : Char) : Bool :=
  decide ('0'.toNat ≤ c.toNat) && decide (c.toNat ≤ '9'.toNat)

/-- Perl class `\w`, which is `[0-9A-Za-z_]`. -/
def isWord (c : Char) : Bool :=
  isDigit c
    || (decide ('A'.toNat ≤ c.toNat) && decide (c.toNat ≤ 'Z'.toNat))
    || (decide ('a'.toNat ≤ c.toNat) && decide (c.toNat ≤ 'z'.toNat))
    || c == '_'

/-- Perl class `\s`, which is `[\t\n\f\r ]`. -/
def isPerlSpace (c : Char) : Bool :=
  c == '\t' || c == '\n' || c == Char.ofNat 12 || c == '\r' || c == ' '

/-- The bracket class `[\w\d-]` of the target pattern. -/
def isWordDigitHyphen (c : Char) : Bool :=
  isWord c || isDigit c || c == '-'

/-! ## The fragment of Go regular expressions used by `lctl.go` -/

/-- Regular expressions: the empty expression, a literal character, `.` (any character but
a newline, no `s` flag being in force where it is used), a character class, a greedy
one-or-more repetition `c+` of a character class, concatenation, and a capturing group. -/
inductive Re where
  | eps
  | lit (c : Char)
  | dot
  | cls (p : Char → Bool)
  | plus (p : Char → Bool)
  | seq (a b : Re)
  | cap (r : Re)

/-- The remainders left by a greedy `c+` at the head of a text, in the order a backtracking
matcher tries them: the longest repetition first, a single character last. -/
def plusRun (p : Char → Bool) : List Char → List (List Char)
  | [] => []
  | c :: t => if p c then plusRun p t ++ [t] else []

/-- All ways for an expression to match at the head of a text, in the priority order of a
backtracking matcher. Each result is the list of captured group texts (in order of their
opening parenthesis) and the unconsumed remainder. -/
def Re.run : Re → List Char → List (List (List Char) × List Char)
  | .eps, s => [([], s)]
  | .lit c, s =>
    match s with
    | d :: t => if d = c then [([], t)] else []
    | [] => []
  | .dot, s =>
    match s with
    | d :: t => if d = '\n' then [] else [([], t)]
    | [] => []
  | .cls p, s =>
    match s with
    | d :: t => if p d then [([], t)] else []
    | [] => []
  | .plus p, s => (plusRun p s).map fun t => ([], t)
  | .seq a b, s => (a.run s).flatMap fun x => (b.run x.2).map fun y => (x.1 ++ y.1, y.2)
  | .cap r, s => (r.run s).map fun x => (s.take (s.length - x.2.length) :: x.1, x.2)

/-- A literal string as an expression. -/
def Re.chars : List Char → Re
  | [] => .eps
  | c :: t => .seq (.lit c) (Re.chars t)

/-- A literal string as an expression. -/
def Re.str (s : String) : Re := Re.chars s.data

/-- Concatenation of a list of expressions. -/
def Re.cat : List Re → Re
  | [] => .eps
  | r :: rs => .seq r (Re.cat rs)

/-- The match of an expression that starts at the head of the text: the preferred one of
`Re.run`, as the slice `[whole match, group 1, group 2, ...]` together with the number of
characters consumed. -/
def submatchAt (r : Re) (s : List Char) : Option (List String × Nat) :=
  match (r.run s).head? with
  | some (caps, rest) =>
    some (String.mk (s.take (s.length - rest.length)) :: caps.map String.mk,
      s.length - rest.length)
  | none => none

/-- Go's `(*Regexp).FindStringSubmatch` on the characters of a text: the leftmost match, `none` being the
`nil` slice returned when there is no match. -/
def findSubmatch (r : Re) : List Char → Option (List String)
  | [] => (submatchAt r []).map Prod.fst
  | c :: t =>
    match submatchAt r (c :: t) with
    | some m => some m.1
    | none => findSubmatch r t

/-- Go's `(*Regexp).FindStringSubmatch`. -/
def FindStringSubmatch (r : Re) (s : String) : Option (List String) :=
  findSubmatch r s.data

/-- Successive non-overlapping leftmost matches over the characters of a text; `skip`
counts the characters still covered by the match found last. The expressions of this
file consume at least one character per match, so Go's special treatment of empty
matches never applies. -/
def findAllSubmatch (r : Re) : List Char → Nat → List (List String)
  | [], _ => []
  | _ :: t, skip + 1 => findAllSubmatch r t skip
  | c :: t, 0 =>
    match submatchAt r (c :: t) with
    | some m => m.1 :: findAllSubmatch r t (m.2 - 1)
    | none => findAllSubmatch r t 0

/-- Go's `(*Regexp).FindAllStringSubmatch(s, -1)`. -/
def FindAllStringSubmatch (r : Re) (s : String) : List (List String) :=
  findAllSubmatch r s.data 0

/-! ## `strconv.ParseFloat(s, 64)` and `strings.TrimSpace` -/

/-- The number denoted by a string of decimal digits. -/
def decimalValue (ds : List Char) : Nat :=
  ds.foldl (fun n c => 10 * n + (c.toNat - '0'.toNat)) 0

/-- The least `e` (searched with `fuel` halvings) such that `n / 2 ^ e < 2 ^ 53`: the
exponent of the unit in the last place of the 53-bit significand of `n`. -/
def ulpExponent : Nat → Nat → Nat
  | 0, _ => 0
  | fuel + 1, n => if n < 2 ^ 53 then 0 else ulpExponent fuel (n / 2) + 1

/-- IEEE 754 round-to-nearest-even of a natural number to a 53-bit significand, without
the overflow check. -/
def roundFloat64 (n : Nat) : Nat :=
  let e := ulpExponent n n
  let q := n / 2 ^ e
  let r := n % 2 ^ e
  if 2 ^ e < 2 * r ∨ (2 * r = 2 ^ e ∧ q % 2 = 1) then (q + 1) * 2 ^ e else q * 2 ^ e

/-- Go's `strconv.ParseFloat(s, 64)` on the inputs the embedded code passes to it, which
are non-empty strings of decimal digits (the constants `1` and `0`, and groups `(\d+)` of
the patterns: theorems `currentIndex_find_some` and `regexCaptureChangelogUser_fields`):
the nearest `float64`, or the range error when that rounding overflows (`±Inf` is then
returned by Go next to the error; no caller reads it). Other literals that Go accepts
(signs, fractions, exponents, hexadecimal, `inf`, `nan`) never reach the function here and
are reported as a syntax error. -/
def ParseFloat (s : String) : Except Error Float64 :=
  if s.data ≠ [] ∧ s.data.all isDigit = true then
    if roundFloat64 (decimalValue s.data) < 2 ^ 1024 then
      .ok (roundFloat64 (decimalValue s.data) : Nat)
    else .error (.numError "ParseFloat" s "value out of range")
  else .error (.numError "ParseFloat" s "invalid syntax")

/-- Go's `unicode.IsSpace`: the code points with the Unicode property White_Space. -/
def isSpace (c : Char) : Bool :=
  let n := c.toNat
  (decide (0x09 ≤ n) && decide (n ≤ 0x0D)) || n == 0x20 || n == 0x85 || n == 0xA0
    || n == 0x1680 || (decide (0x2000 ≤ n) && decide (n ≤ 0x200A)) || n == 0x2028
    || n == 0x2029 || n == 0x202F || n == 0x205F || n == 0x3000

/-- Go's `strings.TrimSpace`: the text without its leading and trailing white space. -/
def TrimSpace (s : String) : String :=
  ⟨((s.data.dropWhile isSpace).reverse.dropWhile isSpace).reverse⟩

/-! ## Measurements -/

/-- The kind of a measurement (`prometheus.ValueType`). -/
inductive ValueType where
  | CounterValue
  | GaugeValue
  deriving DecidableEq, Repr

/-- A measurement as handed to the metrics library: label names, label values, metric
name, help text, kind and value. -/
structure Metric where
  labels : List String
  labelValues : List String
  name : String
  helpText : String
  valueType : ValueType
  value : Float64
  deriving DecidableEq, Repr

/-- Modelled from the spec: `counterMetric` is declared outside the files embedded here;
it builds the counter measurement with the given labels, label values, name, help text and
value. -/
def counterMetric (labels labelValues : List String) (name helpText : String)
    (value : Float64) : Metric :=
  { labels := labels, labelValues := labelValues, name := name, helpText := helpText,
    valueType := .CounterValue, value := value }

/-- Modelled from the spec: `gaugeMetric` is declared outside the files embedded here;
it builds the gauge measurement with the given labels, label values, name, help text and
value. -/
def gaugeMetric (labels labelValues : List String) (name helpText : String)
    (value : Float64) : Metric :=
  { labels := labels, labelValues := labelValues, name := name, helpText := helpText,
    valueType := .GaugeValue, value := value }

/-! ## `sources/lctl.go` -/

/-- The pattern `mdd.([\w\d-]+-MDT[\d]+).changelog_users=`. -/
def changelogTargetRegexPattern : Re :=
  Re.cat [.str "mdd", .dot,
    .cap (Re.cat [.plus isWordDigitHyphen, .str "-MDT", .plus isDigit]),
    .dot, .str "changelog_users="]

/-- The pattern `current index: (\d+)`. -/
def changelogCurrentIndexRegexPattern : Re :=
  Re.cat [.str "current index: ", .cap (.plus isDigit)]

/-- The pattern `(?ms:(cl\d+)\s+(\d+) \((\d+)\))`. The flags `m` and `s` change the meaning
of `^`, `$` and `.` only, none of which occurs in the pattern, and the group `(?ms: )` does
not capture. -/
def changelogUserRegexPattern : Re :=
  Re.cat [.cap (Re.cat [.str "cl", .plus isDigit]), .plus isPerlSpace,
    .cap (.plus isDigit), .str " (", .cap (.plus isDigit), .str ")"]

/-- The constant `lctlParamChangelogUsers`. -/
def lctlParamChangelogUsers : String := "mdd.*-*.changelog_users"

/-- The function `regexCaptureChangelogTarget`. -/
def regexCaptureChangelogTarget (textToMatch : String) : String × Option Error :=
  match FindStringSubmatch changelogTargetRegexPattern textToMatch with
  | some matchedTarget =>
    if matchedTarget.length = 2 then (matchedTarget.getD 1 "", none)
    else ("", some (.errorString "no target found in changelogs"))
  | none => ("", some (.errorString "no target found in changelogs"))

/-- The function `regexCaptureChangelogCurrentIndex`. -/
def regexCaptureChangelogCurrentIndex (textToMatch : String) : Float64 × Option Error :=
  match FindStringSubmatch changelogCurrentIndexRegexPattern textToMatch with
  | some matchedCurrentIndex =>
    if matchedCurrentIndex.length = 2 then
      match ParseFloat (matchedCurrentIndex.getD 1 "") with
      | .error err => (-1, some err)
      | .ok currentIndex => (currentIndex, none)
    else (-1, some (.errorString "no current index found for changelogs"))
  | none => (-1, some (.errorString "no current index found for changelogs"))

/-- The function `regexCaptureChangelogUser`. -/
def regexCaptureChangelogUser (textToMatch : String) : List (List String) :=
  FindAllStringSubmatch changelogUserRegexPattern textToMatch

/-- The loop of `createMDTChangelogUsersMetrics` over the matched user records, with the
measurement list built so far. A record is the slice `[whole, id, index, idle]`; the user
pattern has three groups, so the indices 1, 2 and 3 are always in range (theorem
`regexCaptureChangelogUser_fields`) and the default of `getD` is never used. -/
def changelogUserLoop (target : String) :
    List (List String) → List Metric → List Metric × Option Error
  | [], metricList => (metricList, none)
  | changelogUserFields :: rest, metricList =>
    match ParseFloat (changelogUserFields.getD 2 "") with
    | .error err => ([], some err)
    | .ok index =>
      match ParseFloat (changelogUserFields.getD 3 "") with
      | .error err => ([], some err)
      | .ok idleSeconds =>
        changelogUserLoop target rest
          (metricList ++
            [counterMetric ["component", "target", "id"]
                ["mdt", target, changelogUserFields.getD 1 ""]
                "changelog_user_index" "Index of registered changelog user." index,
              gaugeMetric ["component", "target", "id"]
                ["mdt", target, changelogUserFields.getD 1 ""]
                "changelog_user_idle_time"
                "Idle time in seconds of registered changelog user." idleSeconds])

/-- The part of `createMDTChangelogUsersMetrics` that follows the reading of the command
output `data` (from the call of `regexCaptureChangelogTarget` to the end). -/
def changelogUsersMetricsOfData (data : String) : List Metric × Option Error :=
  match regexCaptureChangelogTarget data with
  | (_, some err) => ([], some err)
  | (target, none) =>
    match regexCaptureChangelogCurrentIndex data with
    | (_, some err) => ([], some err)
    | (currentIndex, none) =>
      changelogUserLoop target (regexCaptureChangelogUser data)
        [counterMetric ["component", "target"] ["mdt", target]
          "changelog_current_index" "Changelog current index." currentIndex]

/-- What `createMDTChangelogUsersMetrics` reads from its surroundings: the package variable
`LctlCommandMode`, the constant `OSPathSeparator` (declared outside the files embedded
here), the output of running a command (`exec.Command(name, args...).Output()`), the
content of a file (`ioutil.ReadFile`), and the library functions `strings.ReplaceAll` and
`filepath.Join`. -/
structure LctlEnv where
  LctlCommandMode : Bool
  OSPathSeparator : String
  commandOutput : String → List String → Except Error String
  ReadFile : String → Except Error String
  ReplaceAll : String → String → String → String
  Join : List String → String

/-- The variable `lctlGetParamArgs`. -/
def lctlGetParamArgs : List String := ["lctl", "get_param"]

/-- The first part of `createMDTChangelogUsersMetrics`: the text `data` obtained from the
command `sudo lctl get_param <lctlParam>` or, outside the command mode, from the file
`lctl/<lctlParam with the dots replaced by the path separator>`; or the error met. -/
def changelogUsersData (env : LctlEnv) (lctlParam : String) : Except Error String :=
  if env.LctlCommandMode then
    env.commandOutput "sudo" (lctlGetParamArgs ++ [lctlParam])
  else
    env.ReadFile (env.Join ["lctl", env.ReplaceAll lctlParam "." env.OSPathSeparator])

/-- The function `createMDTChangelogUsersMetrics`. -/
def createMDTChangelogUsersMetrics (env : LctlEnv) (lctlParam : String) :
    List Metric × Option Error :=
  match changelogUsersData env lctlParam with
  | .error err => ([], some err)
  | .ok data => changelogUsersMetricsOfData data

/-- A Go function value used as `metricHandler`: the name of its code, which is what
`runtime.FuncForPC(reflect.ValueOf(f).Pointer()).Name()` reports, and its behaviour on a
parameter in a state `σ` of the surroundings (files, processes), giving its two results and
the state it leaves. -/
structure MetricHandler (σ : Type) where
  funcName : String
  call : String → σ → (List Metric × Option Error) × σ

/-- The type `lustreLctlMetricCreator`. -/
structure lustreLctlMetricCreator (σ : Type) where
  lctlParam : String
  metricHandler : MetricHandler σ

/-- The type `lustreLctlSource`. -/
structure lustreLctlSource (σ : Type) where
  metricCreator : List (lustreLctlMetricCreator σ)

/-- The loop of `(*lustreLctlSource).Update` over the remaining metric creators: `world` is
the state of the surroundings and `ch` the measurements sent on the channel so far. The
result is the returned error, the measurements sent and the state left. -/
def updateLoop {σ : Type} :
    List (lustreLctlMetricCreator σ) → σ → List Metric → Option Error × List Metric × σ
  | [], world, ch => (none, ch, world)
  | metricCreator :: rest, world, ch =>
    match metricCreator.metricHandler.call metricCreator.lctlParam world with
    | ((_, some err), world1) =>
      (some (.errorString (metricCreator.metricHandler.funcName ++ " - " ++ err.text)), ch,
        world1)
    | ((metricList, none), world1) => updateLoop rest world1 (ch ++ metricList)

/-- The method `(*lustreLctlSource).Update`. -/
def lustreLctlSource.Update {σ : Type} (s : lustreLctlSource σ) (world : σ)
    (ch : List Metric) : Option Error × List Metric × σ :=
  updateLoop s.metricCreator world ch

/-! ## `sources/sysfs.go` -/

/-- The constant `healthCheckHealthy`. -/
def healthCheckHealthy : String := "1"

/-- The constant `healthCheckUnhealthy`. -/
def healthCheckUnhealthy : String := "0"

/-- Modelled from the spec: the selector value `disabled` is declared outside the files
embedded here. -/
def disabled : String := "disabled"

/-- Modelled from the spec: the tier and selector value `core` is declared outside the
files embedded here. -/
def core : String := "core"

/-- Modelled from the spec: the tier and selector value `extended` is declared outside the
files embedded here. -/
def extended : String := "extended"

/-- The type of `counterMetric` and `gaugeMetric`. -/
abbrev MetricFunc := List String → List String → String → String → Float64 → Metric

/-- Modelled from the spec: the type `lustreHelpStruct` is declared outside the files
embedded here; its fields are those of the catalog literals, in their order. -/
structure lustreHelpStruct where
  filename : String
  promName : String
  helpText : String
  metricFunc : MetricFunc
  hasMultipleVals : Bool
  priorityLevel : String

/-- Modelled from the spec: the type `lustreProcMetric` is declared outside the files
embedded here; its fields are those read by `Update` and set by `newLustreProcMetric`. -/
structure lustreProcMetric where
  filename : String
  promName : String
  source : String
  path : String
  helpText : String
  hasMultipleVals : Bool
  metricFunc : MetricFunc

/-- Modelled from the spec: `newLustreProcMetric` is declared outside the files embedded
here; it builds the template with the given fields. -/
def newLustreProcMetric (filename promName source path helpText : String)
    (hasMultipleVals : Bool) (metricFunc : MetricFunc) : lustreProcMetric :=
  { filename := filename, promName := promName, source := source, path := path,
    helpText := helpText, hasMultipleVals := hasMultipleVals, metricFunc := metricFunc }

/-- The help texts of the `stats` file, constants declared outside the files embedded
here. -/
structure StatsHelp where
  readSamplesHelp : String
  readMinimumHelp : String
  readMaximumHelp : String
  readTotalHelp : String
  writeSamplesHelp : String
  writeMinimumHelp : String
  writeMaximumHelp : String
  writeTotalHelp : String
  statsHelp : String

/-- A map literal `map[string][]lustreHelpStruct`, as its entries in source order. -/
abbrev MetricMap := List (String × List lustreHelpStruct)

/-- The `metricMap` of `generateHealthStatusTemplates`. -/
def healthMetricMap : MetricMap :=
  [("", [
    ⟨"health_check", "health_check", "Current health status for the indicated instance: " ++ healthCheckHealthy ++ " refers to 'healthy', " ++ healthCheckUnhealthy ++ " refers to 'unhealthy'", gaugeMetric, false, core⟩])]

/-- The `metricMap` of `generateOSTMetricTemplates`. -/
def ostMetricMap : MetricMap :=
  [("obdfilter/*-OST*", [
    ⟨"degraded", "degraded", "Binary indicator as to whether or not the pool is degraded - 0 for not degraded, 1 for degraded", gaugeMetric, false, core⟩,
    ⟨"grant_precreate", "grant_precreate_capacity_bytes", "Maximum space in bytes that clients can preallocate for objects", gaugeMetric, false, extended⟩,
    ⟨"grant_compat_disable", "grant_compat_disabled", "Binary indicator as to whether clients with OBD_CONNECT_GRANT_PARAM setting will be granted space", gaugeMetric, false, extended⟩,
    ⟨"job_cleanup_interval", "job_cleanup_interval_seconds", "Interval in seconds between cleanup of tuning statistics", gaugeMetric, false, extended⟩,
    ⟨"lfsck_speed_limit", "lfsck_speed_limit", "Maximum operations per second LFSCK (Lustre filesystem verification) can run", gaugeMetric, false, extended⟩,
    ⟨"num_exports", "exports_total", "Total number of times the pool has been exported", counterMetric, false, core⟩,
    ⟨"recovery_time_hard", "recovery_time_hard_seconds", "Maximum timeout 'recover_time_soft' can increment to for a single server", gaugeMetric, false, extended⟩,
    ⟨"recovery_time_soft", "recovery_time_soft_seconds", "Duration in seconds for a client to attempt to reconnect after a crash (automatically incremented if servers are still in an error state)", gaugeMetric, false, extended⟩,
    ⟨"precreate_batch", "precreate_batch", "Maximum number of objects that can be included in a single transaction", gaugeMetric, false, extended⟩,
    ⟨"soft_sync_limit", "soft_sync_limit", "Number of RPCs necessary before triggering a sync", gaugeMetric, false, extended⟩,
    ⟨"sync_journal", "sync_journal_enabled", "Binary indicator as to whether or not the journal is set for asynchronous commits", gaugeMetric, false, extended⟩,
    ⟨"tot_dirty", "exports_dirty_total", "Total number of exports that have been marked dirty", counterMetric, false, core⟩,
    ⟨"tot_granted", "exports_granted_total", "Total number of exports that have been marked granted", counterMetric, false, core⟩,
    ⟨"tot_pending", "exports_pending_total", "Total number of exports that have been marked pending", counterMetric, false, core⟩]),
   ("osd-*/*-OST*", [
    ⟨"blocksize", "blocksize_bytes", "Filesystem block size in bytes", gaugeMetric, false, core⟩,
    ⟨"filesfree", "inodes_free", "The number of inodes (objects) available", gaugeMetric, false, core⟩,
    ⟨"filestotal", "inodes_maximum", "The maximum number of inodes (objects) the filesystem can hold", gaugeMetric, false, core⟩,
    ⟨"kbytesfree", "free_kilobytes", "Number of kilobytes free in the pool", gaugeMetric, false, core⟩,
    ⟨"kbytesavail", "available_kilobytes", "Number of kilobytes readily available in the pool", gaugeMetric, false, core⟩,
    ⟨"kbytestotal", "capacity_kilobytes", "Capacity of the pool in kilobytes", gaugeMetric, false, core⟩]),
   ("ldlm/namespaces/filter-*", [
    ⟨"lock_count", "lock_count", "Number of locks", gaugeMetric, false, extended⟩,
    ⟨"lock_timeouts", "lock_timeout", "Number of lock timeouts", counterMetric, false, extended⟩,
    ⟨"contended_locks", "lock_contended", "Number of contended locks", gaugeMetric, false, extended⟩,
    ⟨"contention_seconds", "lock_contention_seconds", "Time in seconds during which locks were contended", gaugeMetric, false, extended⟩,
    ⟨"pool/granted", "lock_granted", "Number of granted locks", gaugeMetric, false, extended⟩,
    ⟨"pool/grant_plan", "lock_grant_plan", "Number of planned lock grants per second", gaugeMetric, false, extended⟩,
    ⟨"pool/grant_rate", "lock_grant_rate", "Lock grant rate", gaugeMetric, false, extended⟩])]

/-- The `metricMap` of `generateMDTMetricTemplates`. -/
def mdtMetricMap : MetricMap :=
  [("osd-*/*-MDT*", [
    ⟨"blocksize", "blocksize_bytes", "Filesystem block size in bytes", gaugeMetric, false, core⟩,
    ⟨"filesfree", "inodes_free", "The number of inodes (objects) available", gaugeMetric, false, core⟩,
    ⟨"filestotal", "inodes_maximum", "The maximum number of inodes (objects) the filesystem can hold", gaugeMetric, false, core⟩,
    ⟨"kbytesavail", "available_kilobytes", "Number of kilobytes readily available in the pool", gaugeMetric, false, core⟩,
    ⟨"kbytesfree", "free_kilobytes", "Number of kilobytes free in the pool", gaugeMetric, false, core⟩,
    ⟨"kbytestotal", "capacity_kilobytes", "Capacity of the pool in kilobytes", gaugeMetric, false, core⟩]),
   ("mdt/*", [
    ⟨"num_exports", "exports_total", "Total number of times the pool has been exported", counterMetric, false, core⟩])]

/-- The `metricMap` of `generateMGSMetricTemplates`. -/
def mgsMetricMap : MetricMap :=
  [("mgs/MGS/osd/", [
    ⟨"blocksize", "blocksize_bytes", "Filesystem block size in bytes", gaugeMetric, false, core⟩,
    ⟨"filesfree", "inodes_free", "The number of inodes (objects) available", gaugeMetric, false, core⟩,
    ⟨"filestotal", "inodes_maximum", "The maximum number of inodes (objects) the filesystem can hold", gaugeMetric, false, core⟩,
    ⟨"kbytesavail", "available_kilobytes", "Number of kilobytes readily available in the pool", gaugeMetric, false, core⟩,
    ⟨"kbytesfree", "free_kilobytes", "Number of kilobytes free in the pool", gaugeMetric, false, core⟩,
    ⟨"kbytestotal", "capacity_kilobytes", "Capacity of the pool in kilobytes", gaugeMetric, false, core⟩])]

/-- The `metricMap` of `generateClientMetricTemplates`. -/
def clientMetricMap (h : StatsHelp) : MetricMap :=
  [("llite/*", [
    ⟨"blocksize", "blocksize_bytes", "Filesystem block size in bytes", gaugeMetric, false, core⟩,
    ⟨"checksum_pages", "checksum_pages_enabled", "Returns '1' if data checksumming is enabled for the client", gaugeMetric, false, extended⟩,
    ⟨"default_easize", "default_ea_size_bytes", "Default Extended Attribute (EA) size in bytes", gaugeMetric, false, extended⟩,
    ⟨"filesfree", "inodes_free", "The number of inodes (objects) available", gaugeMetric, false, core⟩,
    ⟨"filestotal", "inodes_maximum", "The maximum number of inodes (objects) the filesystem can hold", gaugeMetric, false, core⟩,
    ⟨"kbytesavail", "available_kilobytes", "Number of kilobytes readily available in the pool", gaugeMetric, false, core⟩,
    ⟨"kbytesfree", "free_kilobytes", "Number of kilobytes free in the pool", gaugeMetric, false, core⟩,
    ⟨"kbytestotal", "capacity_kilobytes", "Capacity of the pool in kilobytes", gaugeMetric, false, core⟩,
    ⟨"lazystatfs", "lazystatfs_enabled", "Returns '1' if lazystatfs (a non-blocking alternative to statfs) is enabled for the client", gaugeMetric, false, extended⟩,
    ⟨"max_easize", "maximum_ea_size_bytes", "Maximum Extended Attribute (EA) size in bytes", gaugeMetric, false, extended⟩,
    ⟨"max_read_ahead_mb", "maximum_read_ahead_megabytes", "Maximum number of megabytes to read ahead", gaugeMetric, false, extended⟩,
    ⟨"max_read_ahead_per_file_mb", "maximum_read_ahead_per_file_megabytes", "Maximum number of megabytes per file to read ahead", gaugeMetric, false, extended⟩,
    ⟨"max_read_ahead_whole_mb", "maximum_read_ahead_whole_megabytes", "Maximum file size in megabytes for a file to be read in its entirety", gaugeMetric, false, extended⟩,
    ⟨"statahead_agl", "statahead_agl_enabled", "Returns '1' if the Asynchronous Glimpse Lock (AGL) for statahead is enabled", gaugeMetric, false, extended⟩,
    ⟨"statahead_max", "statahead_maximum", "Maximum window size for statahead", gaugeMetric, false, extended⟩,
    ⟨"stats", "read_samples_total", h.readSamplesHelp, counterMetric, false, core⟩,
    ⟨"stats", "read_minimum_size_bytes", h.readMinimumHelp, gaugeMetric, false, extended⟩,
    ⟨"stats", "read_maximum_size_bytes", h.readMaximumHelp, gaugeMetric, false, extended⟩,
    ⟨"stats", "read_bytes_total", h.readTotalHelp, counterMetric, false, core⟩,
    ⟨"stats", "write_samples_total", h.writeSamplesHelp, counterMetric, false, core⟩,
    ⟨"stats", "write_minimum_size_bytes", h.writeMinimumHelp, gaugeMetric, false, extended⟩,
    ⟨"stats", "write_maximum_size_bytes", h.writeMaximumHelp, gaugeMetric, false, extended⟩,
    ⟨"stats", "write_bytes_total", h.writeTotalHelp, counterMetric, false, core⟩,
    ⟨"stats", "stats_total", h.statsHelp, counterMetric, true, core⟩,
    ⟨"xattr_cache", "xattr_cache_enabled", "Returns '1' if extended attribute cache is enabled", gaugeMetric, false, extended⟩])]

/-- The inner loop `for _, item := range metricMap[path]` of the five `generate...Templates`
methods, appending to the templates registered so far. -/
def appendItems (source filter path : String) :
    List lustreHelpStruct → List lustreProcMetric → List lustreProcMetric
  | [], lustreProcMetrics => lustreProcMetrics
  | item :: rest, lustreProcMetrics =>
    if filter = extended ∨ item.priorityLevel = core then
      appendItems source filter path rest
        (lustreProcMetrics ++
          [newLustreProcMetric item.filename item.promName source path item.helpText
            item.hasMultipleVals item.metricFunc])
    else appendItems source filter path rest lustreProcMetrics

/-- The outer loop `for path := range metricMap` of the five `generate...Templates`
methods. Go visits the keys of a map in an unspecified order: `visit` lists the entries of
the map in the order in which this run of the loop visits them. -/
def appendPaths (source filter : String) :
    MetricMap → List lustreProcMetric → List lustreProcMetric
  | [], lustreProcMetrics => lustreProcMetrics
  | (path, items) :: rest, lustreProcMetrics =>
    appendPaths source filter rest (appendItems source filter path items lustreProcMetrics)

/-- The type `LustreSysFsSource`. -/
structure LustreSysFsSource where
  lustreProcMetrics : List lustreProcMetric
  basePath : String

/-- The method `generateHealthStatusTemplates`, its map being visited in the order
`visit`. -/
def LustreSysFsSource.generateHealthStatusTemplates (s : LustreSysFsSource)
    (visit : MetricMap) (filter : String) : LustreSysFsSource :=
  { s with lustreProcMetrics := appendPaths "health" filter visit s.lustreProcMetrics }

/-- The method `generateOSTMetricTemplates`, its map being visited in the order `visit`. -/
def LustreSysFsSource.generateOSTMetricTemplates (s : LustreSysFsSource)
    (visit : MetricMap) (filter : String) : LustreSysFsSource :=
  { s with lustreProcMetrics := appendPaths "ost" filter visit s.lustreProcMetrics }

/-- The method `generateMDTMetricTemplates`, its map being visited in the order `visit`. -/
def LustreSysFsSource.generateMDTMetricTemplates (s : LustreSysFsSource)
    (visit : MetricMap) (filter : String) : LustreSysFsSource :=
  { s with lustreProcMetrics := appendPaths "mdt" filter visit s.lustreProcMetrics }

/-- The method `generateMGSMetricTemplates`, its map being visited in the order `visit`. -/
def LustreSysFsSource.generateMGSMetricTemplates (s : LustreSysFsSource)
    (visit : MetricMap) (filter : String) : LustreSysFsSource :=
  { s with lustreProcMetrics := appendPaths "mgs" filter visit s.lustreProcMetrics }

/-- The method `generateClientMetricTemplates`, its map being visited in the order
`visit`. -/
def LustreSysFsSource.generateClientMetricTemplates (s : LustreSysFsSource)
    (visit : MetricMap) (filter : String) : LustreSysFsSource :=
  { s with lustreProcMetrics := appendPaths "client" filter visit s.lustreProcMetrics }

/-- The package variables read by `newLustreSysFsSource` (`SysLocation`, `OstEnabled` and
`ClientEnabled` are declared outside the files embedded here). -/
structure Settings where
  SysLocation : String
  HealthStatusEnabled : String
  OstEnabled : String
  MdtEnabled : String
  MgsEnabled : String
  ClientEnabled : String

/-- The orders in which one run of `newLustreSysFsSource` visits the entries of the five
catalog maps. -/
structure VisitOrders where
  health : MetricMap
  ost : MetricMap
  mdt : MetricMap
  mgs : MetricMap
  client : MetricMap

/-- The function `newLustreSysFsSource`; `Join` is the library function `filepath.Join`. -/
def newLustreSysFsSource (Join : List String → String) (g : Settings) (v : VisitOrders) :
    LustreSysFsSource :=
  let l : LustreSysFsSource :=
    { lustreProcMetrics := [], basePath := Join [g.SysLocation, "fs/lustre"] }
  let l := if g.HealthStatusEnabled ≠ disabled then
    l.generateHealthStatusTemplates v.health g.HealthStatusEnabled else l
  let l := if g.OstEnabled ≠ disabled then
    l.generateOSTMetricTemplates v.ost g.OstEnabled else l
  let l := if g.MdtEnabled ≠ disabled then
    l.generateMDTMetricTemplates v.mdt g.MdtEnabled else l
  let l := if g.MgsEnabled ≠ disabled then
    l.generateMGSMetricTemplates v.mgs g.MgsEnabled else l
  let l := if g.ClientEnabled ≠ disabled then
    l.generateClientMetricTemplates v.client g.ClientEnabled else l
  l

/-- One call of the `handler` argument of `parseTextFile`, with its five arguments. -/
structure HandlerCall where
  nodeType : String
  nodeName : String
  name : String
  helpText : String
  value : Float64
  deriving DecidableEq, Repr

/-- What `parseTextFile` uses from its surroundings: `parseFileElements` (declared outside
the files embedded here), and the library functions `filepath.Clean` and
`ioutil.ReadFile`. -/
structure SysFsEnv where
  parseFileElements : String → Int → String × String × Option Error
  Clean : String → String
  ReadFile : String → Except Error String

/-- The method `parseTextFile`: the calls made to `handler`, in order, and the returned
error. -/
def parseTextFile (env : SysFsEnv) (nodeType metricType path : String)
    (directoryDepth : Int) (helpText promName : String) : List HandlerCall × Option Error :=
  match env.parseFileElements path directoryDepth with
  | (_, _, some err) => ([], some err)
  | (filename, nodeName, none) =>
    match env.ReadFile (env.Clean path) with
    | .error err => ([], some err)
    | .ok fileString =>
      if filename = "health_check" then
        if TrimSpace fileString = "healthy" then
          match ParseFloat (TrimSpace healthCheckHealthy) with
          | .error err => ([], some err)
          | .ok value => ([⟨nodeType, nodeName, promName, helpText, value⟩], none)
        else
          match ParseFloat (TrimSpace healthCheckUnhealthy) with
          | .error err => ([], some err)
          | .ok value => ([⟨nodeType, nodeName, promName, helpText, value⟩], none)
      else ([], none)

/-! ## Definitions used to state the properties -/

/-- The language of an expression with its captures: `r.Matches w caps` says that `r`
matches exactly the text `w`, its groups capturing the texts `caps`. -/
def Re.Matches : Re → List Char → List (List Char) → Prop
  | .eps, w, caps => w = [] ∧ caps = []
  | .lit c, w, caps => w = [c] ∧ caps = []
  | .dot, w, caps => ∃ d, d ≠ '\n' ∧ w = [d] ∧ caps = []
  | .cls p, w, caps => ∃ d, p d = true ∧ w = [d] ∧ caps = []
  | .plus p, w, caps => w ≠ [] ∧ (∀ c ∈ w, p c = true) ∧ caps = []
  | .seq a b, w, caps =>
    ∃ w1 w2 c1 c2, w = w1 ++ w2 ∧ caps = c1 ++ c2 ∧ a.Matches w1 c1 ∧ b.Matches w2 c2
  | .cap r, w, caps => ∃ c, caps = w :: c ∧ r.Matches w c

/-- The text contains a match of the target pattern: somewhere in it stand `mdd`, one
character other than a newline, a non-empty run of word characters, digits and hyphens,
`-MDT`, a non-empty run of decimal digits, one character other than a newline, and
`changelog_users=`. -/
def ContainsTargetMatch (text : String) : Prop :=
  ∃ pre x wd dg y post, x ≠ '\n' ∧ y ≠ '\n' ∧ wd ≠ [] ∧
    (∀ c ∈ wd, isWordDigitHyphen c = true) ∧ dg ≠ [] ∧ (∀ c ∈ dg, isDigit c = true) ∧
    text.data =
      pre ++ ("mdd".data ++ x :: (wd ++ "-MDT".data ++ dg) ++ y :: "changelog_users=".data)
        ++ post

/-- The text `s` begins with `l` immediately followed by a decimal digit. -/
def startsWithThenDigit : List Char → List Char → Bool
  | [], [] => false
  | [], c :: _ => isDigit c
  | _ :: _, [] => false
  | a :: l, c :: s => a == c && startsWithThenDigit l s

/-- The text contains an occurrence of `current index: ` immediately followed by a decimal
digit. -/
def ContainsCurrentIndex (text : String) : Prop :=
  ∃ pre c post, isDigit c = true ∧ text.data = pre ++ "current index: ".data ++ c :: post

/-- The natural number `n` is exactly representable as a `float64`: it is a 53-bit
significand times a power of two, below `2 ^ 1024`. -/
def exactFloat64 (n : Nat) : Prop :=
  n < 2 ^ 1024 ∧ ∃ m e, m < 2 ^ 53 ∧ n = m * 2 ^ e

/-- A user record of the changelog text: the digits of its id after `cl`, its index and
its idle seconds, as written. -/
structure UserRecord where
  number : String
  index : String
  idle : String

/-- The id `cl<digits>` of a user record. -/
def UserRecord.id (r : UserRecord) : String := "cl" ++ r.number

/-- The line `<id>   <index> (<idle>)` of a user record. -/
def UserRecord.line (r : UserRecord) : String :=
  r.id ++ "   " ++ r.index ++ " (" ++ r.idle ++ ")"

/-- The three numbers of a user record are non-empty strings of decimal digits. -/
def UserRecord.WellFormed (r : UserRecord) : Prop :=
  (r.number ≠ "" ∧ ∀ c ∈ r.number.data, isDigit c = true)
    ∧ (r.index ≠ "" ∧ ∀ c ∈ r.index.data, isDigit c = true)
    ∧ (r.idle ≠ "" ∧ ∀ c ∈ r.idle.data, isDigit c = true)

/-- The three header lines of the changelog text. -/
def changelogHeader (currentIndex : String) : String :=
  "mdd.lustre-MDT0000.changelog_users=\ncurrent index: " ++ currentIndex
    ++ "\nID    index (idle seconds)"

/-- The lines of the user records, each on a new line. -/
def recordLines : List UserRecord → String
  | [] => ""
  | r :: rs => "\n" ++ r.line ++ recordLines rs

/-- The changelog text: the header lines followed by one line per user record. -/
def changelogText (currentIndex : String) (rs : List UserRecord) : String :=
  changelogHeader currentIndex ++ recordLines rs

/-- No `c` of the text is followed by `l` or stands at its end: no match of the user
pattern, which begins with `cl`, can start in the text, whatever follows it. -/
def clFree : List Char → Bool
  | [] => true
  | [c] => c != 'c'
  | c :: d :: t => !(c == 'c' && d == 'l') && clFree (d :: t)

/-- The text contains the literal substring `mdd.<t>.changelog_users=`, the target id `t`
standing between two dots. -/
def ContainsDottedTarget (text t : String) : Prop :=
  ("mdd.".data ++ t.data ++ ".changelog_users=".data) <:+: text.data

/-- An ASCII letter or decimal digit. -/
def isAlphanumeric (c : Char) : Bool :=
  isDigit c
    || (decide ('A'.toNat ≤ c.toNat) && decide (c.toNat ≤ 'Z'.toNat))
    || (decide ('a'.toNat ≤ c.toNat) && decide (c.toNat ≤ 'z'.toNat))

/-- An alphanumeric token: a non-empty string of ASCII letters and decimal digits. -/
def isAlphanumericToken (u : String) : Bool :=
  !u.data.isEmpty && u.data.all isAlphanumeric

/-- The line `<u> <i> (<s>)` of a user with id `u`, index `i` and idle seconds `s`, the two
numbers written in decimal. -/
def userLine (u : String) (i s : Nat) : String :=
  u ++ " " ++ toString i ++ " (" ++ toString s ++ ")"

/-- The text `s` begins with a match of the target pattern whose group is `t`: `mdd`, one
character other than a newline, `t` (a non-empty run of word characters, digits and
hyphens, `-MDT`, a non-empty run of decimal digits), one character other than a newline,
and `changelog_users=`. -/
def TargetMatchAt (s t : List Char) : Prop :=
  ∃ x wd dg y post, x ≠ '\n' ∧ y ≠ '\n' ∧ wd ≠ [] ∧
    (∀ c ∈ wd, isWordDigitHyphen c = true) ∧ dg ≠ [] ∧ (∀ c ∈ dg, isDigit c = true) ∧
    t = wd ++ "-MDT".data ++ dg ∧
    s = ("mdd".data ++ x :: t ++ y :: "changelog_users=".data) ++ post

/-- The value of the label `name` of a measurement, if it has that label. -/
def Metric.label (m : Metric) (name : String) : Option String :=
  (m.labels.zip m.labelValues).lookup name

/-- A command output with the blocks of two targets, for examples. -/
def twoTargetsBlock : String :=
  "mdd.lustre-MDT0000.changelog_users=\ncurrent index: 34\nID    index (idle seconds)\ncl1   0 (1725676)\nmdd.lustre-MDT0001.changelog_users=\ncurrent index: 7\nID    index (idle seconds)\ncl2   5 (3)"

/-- A registered changelog user as the claims describe it: its id and its two numbers. -/
structure ChangelogUser where
  id : String
  index : Float64
  idleSeconds : Float64

/-- The two measurements of a registered changelog user, in the order in which they are
appended. -/
def ChangelogUser.metrics (target : String) (u : ChangelogUser) : List Metric :=
  [counterMetric ["component", "target", "id"] ["mdt", target, u.id]
      "changelog_user_index" "Index of registered changelog user." u.index,
    gaugeMetric ["component", "target", "id"] ["mdt", target, u.id]
      "changelog_user_idle_time" "Idle time in seconds of registered changelog user."
      u.idleSeconds]

/-- A matched user record `[whole, id, index, idle]` denotes the user `u`: its first group
is the id of `u` and its second and third groups parse to the two numbers of `u`. -/
def Denotes (fields : List String) (u : ChangelogUser) : Prop :=
  fields.getD 1 "" = u.id ∧ ParseFloat (fields.getD 2 "") = .ok u.index
    ∧ ParseFloat (fields.getD 3 "") = .ok u.idleSeconds

/-- Run in list order from the state `world`, each of the metric creators returns without
error; `out` is the concatenation of their measurements and `final` the state left. -/
inductive AllSucceed {σ : Type} :
    List (lustreLctlMetricCreator σ) → σ → List Metric → σ → Prop where
  | nil (world : σ) : AllSucceed [] world [] world
  | cons (c : lustreLctlMetricCreator σ) (rest : List (lustreLctlMetricCreator σ))
      (world world1 final : σ) (metricList out : List Metric)
      (hcall : c.metricHandler.call c.lctlParam world = ((metricList, none), world1))
      (hrest : AllSucceed rest world1 out final) :
      AllSucceed (c :: rest) world (metricList ++ out) final

/-- The five subsystem categories of the `sysfs` source. -/
inductive Category where
  | health
  | ost
  | mdt
  | mgs
  | client

/-- The `source` tag that the category's `generate...Templates` method gives to the
templates it registers. -/
def Category.source : Category → String
  | .health => "health"
  | .ost => "ost"
  | .mdt => "mdt"
  | .mgs => "mgs"
  | .client => "client"

/-- The selector of a category among the package variables. -/
def Category.selector (g : Settings) : Category → String
  | .health => g.HealthStatusEnabled
  | .ost => g.OstEnabled
  | .mdt => g.MdtEnabled
  | .mgs => g.MgsEnabled
  | .client => g.ClientEnabled

/-- The catalog of a category: the map literal of its `generate...Templates` method. -/
def Category.catalog (h : StatsHelp) : Category → MetricMap
  | .health => healthMetricMap
  | .ost => ostMetricMap
  | .mdt => mdtMetricMap
  | .mgs => mgsMetricMap
  | .client => clientMetricMap h

/-- The order in which a run visits the catalog of a category. -/
def Category.visit (v : VisitOrders) : Category → MetricMap
  | .health => v.health
  | .ost => v.ost
  | .mdt => v.mdt
  | .mgs => v.mgs
  | .client => v.client

/-- The template that registering a catalog entry creates. -/
def templateOf (source path : String) (item : lustreHelpStruct) : lustreProcMetric :=
  newLustreProcMetric item.filename item.promName source path item.helpText
    item.hasMultipleVals item.metricFunc

/-- The templates of the entries of a map that satisfy `keep`. -/
def catalogTemplates (source : String) (keep : lustreHelpStruct → Bool) (m : MetricMap) :
    List lustreProcMetric :=
  m.flatMap fun e => (e.2.filter keep).map (templateOf source e.1)

/-- The templates of the catalog entries of tier `core` of a category. -/
def Category.coreTemplates (h : StatsHelp) (cat : Category) : List lustreProcMetric :=
  catalogTemplates cat.source (fun item => decide (item.priorityLevel = core))
    (cat.catalog h)

/-- The templates of all catalog entries of a category. -/
def Category.allTemplates (h : StatsHelp) (cat : Category) : List lustreProcMetric :=
  catalogTemplates cat.source (fun _ => true) (cat.catalog h)

/-- The templates of a category registered in a source, in registration order. -/
def Category.registered (cat : Category) (l : LustreSysFsSource) : List lustreProcMetric :=
  l.lustreProcMetrics.filter fun t => decide (t.source = cat.source)

/-- Settings for examples, with one selector for all five categories. -/
def sampleSettings (selector : String) : Settings :=
  { SysLocation := "/sys", HealthStatusEnabled := selector, OstEnabled := selector,
    MdtEnabled := selector, MgsEnabled := selector, ClientEnabled := selector }

/-- Help texts for examples. -/
def sampleHelp : StatsHelp :=
  { readSamplesHelp := "", readMinimumHelp := "", readMaximumHelp := "", readTotalHelp := "",
    writeSamplesHelp := "", writeMinimumHelp := "", writeMaximumHelp := "",
    writeTotalHelp := "", statsHelp := "" }

/-- A visiting order for examples: every catalog in the reverse of its source order. -/
def sampleVisit : VisitOrders :=
  { health := healthMetricMap.reverse, ost := ostMetricMap.reverse,
    mdt := mdtMetricMap.reverse, mgs := mgsMetricMap.reverse,
    client := (clientMetricMap sampleHelp).reverse }

/-- A measurement used in examples. -/
def sampleMetric : Metric :=
  counterMetric ["component", "target"] ["mdt", "lustre-MDT0000"]
    "changelog_current_index" "Changelog current index." 34

/-- A metric creator for examples, over a state that counts the handler calls made: its
handler returns `sampleMetric` and the given error. -/
def sampleCreator (funcName : String) (err : Option Error) : lustreLctlMetricCreator Nat :=
  { lctlParam := lctlParamChangelogUsers,
    metricHandler :=
      { funcName := funcName, call := fun _ calls => (([sampleMetric], err), calls + 1) } }

/-- Surroundings for examples: outside the command mode, every file read has the content
`data`. -/
def sampleEnv (data : String) : LctlEnv :=
  { LctlCommandMode := false, OSPathSeparator := "/",
    commandOutput := fun _ _ => .error (.errorString "not run"),
    ReadFile := fun _ => .ok data,
    ReplaceAll := fun s _ _ => s,
    Join := fun l => String.intercalate "/" l }

/-- The text of `TestChangelogCurrentIndex` and `TestChangelogUser`. -/
def testBlock : String :=
  "mdd.lustre-MDT0000.changelog_users=\n\tcurrent index: 34\n\tID    index (idle seconds)\n\tcl1   0 (1725676)\n\tcl2   34 (28)"

/-! ## Theorems -/

/-! ## Facts about lists -/

theorem head?_eq_of_forall_mem {α β : Type} (f : α → β) (v : β) :
    ∀ (l : List α), l ≠ [] → (∀ x ∈ l, f x = v) → l.head?.map f = some v
  | [], h, _ => absurd rfl h
  | x :: _, _, h => by simp [h x (List.mem_cons_self _ _)]

theorem append_cons_eq_append_singleton {c : Char} :
    ∀ (u u' v : List Char), u ++ c :: v = u' ++ [c] → c ∉ u' → u = u' ∧ v = []
  | [], [], v, h, _ => by simpa using h
  | [], d :: u', v, h, hc => by
    simp only [List.nil_append, List.cons_append, List.cons.injEq] at h
    exact absurd (List.mem_cons.2 (Or.inl h.1)) hc
  | a :: u, [], v, h, _ => by simp at h
  | a :: u, d :: u', v, h, hc => by
    simp only [List.cons_append, List.cons.injEq] at h
    have ih := append_cons_eq_append_singleton u u' v h.2
      (fun hm => hc (List.mem_cons_of_mem _ hm))
    exact ⟨by rw [h.1, ih.1], ih.2⟩

theorem take_append_sub (w rest : List Char) :
    (w ++ rest).take ((w ++ rest).length - rest.length) = w := by
  simp

/-- Two decompositions of one text into a run of characters of a class followed by a
remainder that does not begin with a character of the class are the same. -/
theorem run_split_unique (p : Char → Bool) :
    ∀ (a b u v : List Char), (∀ c ∈ a, p c = true) → (∀ c ∈ b, p c = true) →
      (∀ c t, u = c :: t → p c = false) → (∀ c t, v = c :: t → p c = false) →
      a ++ u = b ++ v → a = b ∧ u = v
  | [], [], u, v, _, _, _, _, h => ⟨rfl, by simpa using h⟩
  | [], d :: b, u, v, _, hb, hu, _, h => by
    simp only [List.nil_append, List.cons_append] at h
    have h1 := hu d (b ++ v) h
    have h2 := hb d (List.mem_cons_self _ _)
    rw [h1] at h2; exact absurd h2 (by decide)
  | c :: a, [], u, v, ha, _, _, hv, h => by
    simp only [List.nil_append, List.cons_append] at h
    have h1 := hv c (a ++ u) h.symm
    have h2 := ha c (List.mem_cons_self _ _)
    rw [h1] at h2; exact absurd h2 (by decide)
  | c :: a, d :: b, u, v, ha, hb, hu, hv, h => by
    simp only [List.cons_append, List.cons.injEq] at h
    have ih := run_split_unique p a b u v (fun x hx => ha x (List.mem_cons_of_mem _ hx))
      (fun x hx => hb x (List.mem_cons_of_mem _ hx)) hu hv h.2
    exact ⟨by rw [h.1, ih.1], ih.2⟩

/-! ## The matcher and the language of an expression -/

theorem mem_plusRun (p : Char → Bool) :
    ∀ (s t : List Char),
      t ∈ plusRun p s ↔ ∃ w, w ≠ [] ∧ (∀ c ∈ w, p c = true) ∧ s = w ++ t
  | [], t => by
    simp only [plusRun, List.not_mem_nil, false_iff, not_exists, not_and]
    intro w hw _ h
    exact hw (List.append_eq_nil.1 h.symm).1
  | c :: s, t => by
    by_cases hp : p c = true
    · simp only [plusRun, hp, if_true, List.mem_append, List.mem_singleton, mem_plusRun p s t]
      constructor
      · rintro (⟨w, _, hw, rfl⟩ | rfl)
        · exact ⟨c :: w, by simp, by simpa [hp] using hw, rfl⟩
        · exact ⟨[c], by simp, by simpa using hp, rfl⟩
      · rintro ⟨w, hne, hw, h⟩
        cases w with
        | nil => exact absurd rfl hne
        | cons d w =>
          simp only [List.cons_append, List.cons.injEq] at h
          by_cases hw0 : w = []
          · right; subst hw0; simpa using h.2.symm
          · left
            exact ⟨w, hw0, fun x hx => hw x (List.mem_cons_of_mem _ hx), h.2⟩
    · have hp' : p c = false := by simpa using hp
      simp only [plusRun, hp', Bool.false_eq_true, if_false, List.not_mem_nil, false_iff]
      rintro ⟨w, hne, hw, h⟩
      cases w with
      | nil => exact hne rfl
      | cons d w =>
        simp only [List.cons_append, List.cons.injEq] at h
        exact hp (h.1 ▸ hw d (List.mem_cons_self _ _))

/-- The matcher is sound and complete for the language: its results at the head of `s` are
exactly the splits of `s` into a matched text and a remainder. -/
theorem mem_run : ∀ (r : Re) (s : List Char) (caps : List (List Char)) (rest : List Char),
    (caps, rest) ∈ r.run s ↔ ∃ w, s = w ++ rest ∧ r.Matches w caps
  | .eps, s, caps, rest => by
    simp only [Re.run, Re.Matches, List.mem_singleton, Prod.mk.injEq]
    constructor
    · rintro ⟨rfl, rfl⟩; exact ⟨[], rfl, rfl, rfl⟩
    · rintro ⟨w, h, rfl, rfl⟩; exact ⟨rfl, by simpa using h.symm⟩
  | .lit c, s, caps, rest => by
    cases s with
    | nil =>
      simp only [Re.run, Re.Matches, List.not_mem_nil, false_iff]
      rintro ⟨w, h, rfl, -⟩; simp at h
    | cons d t =>
      simp only [Re.run, Re.Matches]
      constructor
      · intro h
        by_cases hd : d = c
        · simp only [hd, if_true, List.mem_singleton, Prod.mk.injEq] at h
          exact ⟨[c], by simp [hd, h.2], rfl, h.1⟩
        · simp [hd] at h
      · rintro ⟨w, h, rfl, rfl⟩
        simp only [List.cons_append, List.nil_append, List.cons.injEq] at h
        simp [h.1, h.2]
  | .dot, s, caps, rest => by
    cases s with
    | nil =>
      simp only [Re.run, Re.Matches, List.not_mem_nil, false_iff]
      rintro ⟨w, h, d, -, rfl, -⟩; simp at h
    | cons d t =>
      simp only [Re.run, Re.Matches]
      constructor
      · intro h
        by_cases hd : d = '\n'
        · simp [hd] at h
        · simp only [hd, if_false, List.mem_singleton, Prod.mk.injEq] at h
          exact ⟨[d], by simp [h.2], d, hd, rfl, h.1⟩
      · rintro ⟨w, h, e, he, rfl, rfl⟩
        simp only [List.cons_append, List.nil_append, List.cons.injEq] at h
        simp [h.1, h.2, he]
  | .cls p, s, caps, rest => by
    cases s with
    | nil =>
      simp only [Re.run, Re.Matches, List.not_mem_nil, false_iff]
      rintro ⟨w, h, d, -, rfl, -⟩; simp at h
    | cons d t =>
      simp only [Re.run, Re.Matches]
      constructor
      · intro h
        by_cases hd : p d = true
        · simp only [hd, if_true, List.mem_singleton, Prod.mk.injEq] at h
          exact ⟨[d], by simp [h.2], d, hd, rfl, h.1⟩
        · simp [hd] at h
      · rintro ⟨w, h, e, he, rfl, rfl⟩
        simp only [List.cons_append, List.nil_append, List.cons.injEq] at h
        simp [h.1, h.2, he]
  | .plus p, s, caps, rest => by
    simp only [Re.run, Re.Matches, List.mem_map, Prod.mk.injEq]
    constructor
    · rintro ⟨t, ht, rfl, rfl⟩
      obtain ⟨w, hne, hw, rfl⟩ := (mem_plusRun p s t).1 ht
      exact ⟨w, rfl, hne, hw, rfl⟩
    · rintro ⟨w, rfl, hne, hw, rfl⟩
      exact ⟨rest, (mem_plusRun p _ rest).2 ⟨w, hne, hw, rfl⟩, rfl, rfl⟩
  | .seq a b, s, caps, rest => by
    simp only [Re.run, Re.Matches, List.mem_flatMap, List.mem_map, Prod.mk.injEq, Prod.exists]
    constructor
    · rintro ⟨c1, s1, h1, c2, s2, h2, rfl, rfl⟩
      obtain ⟨w1, rfl, m1⟩ := (mem_run a s c1 s1).1 h1
      obtain ⟨w2, rfl, m2⟩ := (mem_run b s1 c2 s2).1 h2
      exact ⟨w1 ++ w2, by simp, w1, w2, c1, c2, rfl, rfl, m1, m2⟩
    · rintro ⟨w, rfl, w1, w2, c1, c2, rfl, rfl, m1, m2⟩
      exact ⟨c1, w2 ++ rest, (mem_run a _ c1 _).2 ⟨w1, by simp, m1⟩, c2, rest,
        (mem_run b _ c2 _).2 ⟨w2, rfl, m2⟩, rfl, rfl⟩
  | .cap r, s, caps, rest => by
    simp only [Re.run, Re.Matches, List.mem_map, Prod.mk.injEq, Prod.exists]
    constructor
    · rintro ⟨c, s1, h, rfl, rfl⟩
      obtain ⟨w, rfl, m⟩ := (mem_run r s c s1).1 h
      exact ⟨w, rfl, c, by simp, m⟩
    · rintro ⟨w, rfl, c, rfl, m⟩
      exact ⟨c, rest, (mem_run r _ c _).2 ⟨w, rfl, m⟩, by simp, rfl⟩

/-! ## Leftmost matches -/

theorem submatchAt_eq_none (r : Re) (s : List Char) :
    submatchAt r s = none ↔ r.run s = [] := by
  unfold submatchAt
  cases h : r.run s with
  | nil => simp
  | cons x l => simp

/-- When all results of the matcher at the head of `s` agree, that result is the match. -/
theorem submatchAt_of_unique (r : Re) (s : List Char) (caps : List (List Char))
    (rest : List Char) (hne : r.run s ≠ [])
    (hall : ∀ x ∈ r.run s, x = (caps, rest)) :
    submatchAt r s =
      some (String.mk (s.take (s.length - rest.length)) :: caps.map String.mk,
        s.length - rest.length) := by
  unfold submatchAt
  cases h : r.run s with
  | nil => exact absurd h hne
  | cons x l =>
    have hx : x = (caps, rest) := hall x (by rw [h]; exact List.mem_cons_self _ _)
    simp [hx]

theorem submatchAt_eq_some (r : Re) (s : List Char) (m : List String) (n : Nat)
    (h : submatchAt r s = some (m, n)) :
    ∃ caps rest, (caps, rest) ∈ r.run s ∧
      m = String.mk (s.take (s.length - rest.length)) :: caps.map String.mk ∧
      n = s.length - rest.length := by
  unfold submatchAt at h
  cases hr : r.run s with
  | nil => simp [hr] at h
  | cons x l =>
    simp only [hr, List.head?_cons, Option.some.injEq, Prod.mk.injEq] at h
    exact ⟨x.1, x.2, List.mem_cons_self _ _, h.1.symm, h.2.symm⟩

theorem findSubmatch_eq_none (r : Re) :
    ∀ s : List Char, findSubmatch r s = none ↔ ∀ a b, s = a ++ b → r.run b = []
  | [] => by
    simp only [findSubmatch, Option.map_eq_none', submatchAt_eq_none]
    constructor
    · intro h a b hab
      obtain ⟨-, rfl⟩ := List.append_eq_nil.1 hab.symm
      exact h
    · intro h
      exact h [] [] rfl
  | c :: t => by
    unfold findSubmatch
    cases hs : submatchAt r (c :: t) with
    | some m =>
      have hne : r.run (c :: t) ≠ [] := fun h => by
        rw [(submatchAt_eq_none r _).2 h] at hs
        exact absurd hs (by simp)
      constructor
      · intro h
        exact absurd h (by simp)
      · intro h
        exact absurd (h [] (c :: t) rfl) hne
    | none =>
      simp only [findSubmatch_eq_none r t]
      constructor
      · intro h a b hab
        cases a with
        | nil =>
          simp only [List.nil_append] at hab
          rw [← hab]
          exact (submatchAt_eq_none r _).1 hs
        | cons d a =>
          simp only [List.cons_append, List.cons.injEq] at hab
          exact h a b hab.2
      · intro h a b hab
        exact h (c :: a) b (by rw [hab]; rfl)

/-- The leftmost match: no match starts inside `a`, one starts right after it. -/
theorem findSubmatch_eq_some (r : Re) (b : List Char) (m : List String) (n : Nat)
    (hb : submatchAt r b = some (m, n)) :
    ∀ a : List Char, (∀ a1 a2, a = a1 ++ a2 → a2 ≠ [] → r.run (a2 ++ b) = []) →
      findSubmatch r (a ++ b) = some m
  | [], _ => by
    cases b with
    | nil => simp [findSubmatch, hb]
    | cons c t => simp [findSubmatch, hb]
  | c :: a, h => by
    have h0 : submatchAt r (c :: a ++ b) = none :=
      (submatchAt_eq_none r _).2 (h [] (c :: a) rfl (by simp))
    simp only [List.cons_append] at h0 ⊢
    unfold findSubmatch
    rw [h0]
    exact findSubmatch_eq_some r b m n hb a fun a1 a2 ha hne =>
      h (c :: a1) a2 (by rw [ha]; rfl) hne

/-- A returned match comes from a result of the matcher at some position of the text. -/
theorem findSubmatch_some_imp (r : Re) :
    ∀ (s : List Char) (m : List String), findSubmatch r s = some m →
      ∃ a b caps rest, s = a ++ b ∧ (caps, rest) ∈ r.run b ∧
        m = String.mk (b.take (b.length - rest.length)) :: caps.map String.mk
  | [], m, h => by
    simp only [findSubmatch, Option.map_eq_some', Prod.exists, exists_and_right,
      exists_eq_right] at h
    obtain ⟨n, hn⟩ := h
    obtain ⟨caps, rest, hmem, hm, -⟩ := submatchAt_eq_some r [] m n hn
    exact ⟨[], [], caps, rest, rfl, hmem, hm⟩
  | c :: t, m, h => by
    unfold findSubmatch at h
    cases hs : submatchAt r (c :: t) with
    | some x =>
      simp only [hs, Option.some.injEq] at h
      obtain ⟨caps, rest, hmem, hm, -⟩ := submatchAt_eq_some r (c :: t) x.1 x.2 hs
      exact ⟨[], c :: t, caps, rest, rfl, hmem, h ▸ hm⟩
    | none =>
      simp only [hs] at h
      obtain ⟨a, b, caps, rest, hab, hmem, hm⟩ := findSubmatch_some_imp r t m h
      exact ⟨c :: a, b, caps, rest, by rw [hab]; rfl, hmem, hm⟩

/-! ## The languages of the three patterns -/

theorem matches_chars : ∀ (l w : List Char) (caps : List (List Char)),
    (Re.chars l).Matches w caps ↔ w = l ∧ caps = []
  | [], w, caps => by simp [Re.chars, Re.Matches]
  | c :: l, w, caps => by
    simp only [Re.chars, Re.Matches, matches_chars l]
    constructor
    · rintro ⟨w1, w2, c1, c2, rfl, rfl, ⟨rfl, rfl⟩, rfl, rfl⟩
      exact ⟨rfl, rfl⟩
    · rintro ⟨rfl, rfl⟩
      exact ⟨[c], l, [], [], rfl, rfl, ⟨rfl, rfl⟩, rfl, rfl⟩

theorem matches_eps (w : List Char) (caps : List (List Char)) :
    Re.eps.Matches w caps ↔ w = [] ∧ caps = [] := Iff.rfl

theorem matches_str_seq (s : String) (r : Re) (w : List Char) (caps : List (List Char)) :
    (Re.seq (Re.str s) r).Matches w caps ↔ ∃ w2, w = s.data ++ w2 ∧ r.Matches w2 caps := by
  simp only [Re.Matches, Re.str, matches_chars]
  constructor
  · rintro ⟨_, w2, _, _, rfl, rfl, ⟨rfl, rfl⟩, h⟩
    exact ⟨w2, rfl, h⟩
  · rintro ⟨w2, rfl, h⟩
    exact ⟨_, w2, [], caps, rfl, rfl, ⟨rfl, rfl⟩, h⟩

theorem matches_dot_seq (r : Re) (w : List Char) (caps : List (List Char)) :
    (Re.seq Re.dot r).Matches w caps ↔ ∃ x w2, x ≠ '\n' ∧ w = x :: w2 ∧ r.Matches w2 caps := by
  simp only [Re.Matches]
  constructor
  · rintro ⟨_, w2, _, _, rfl, rfl, ⟨x, hx, rfl, rfl⟩, h⟩
    exact ⟨x, w2, hx, rfl, h⟩
  · rintro ⟨x, w2, hx, rfl, h⟩
    exact ⟨[x], w2, [], caps, rfl, rfl, ⟨x, hx, rfl, rfl⟩, h⟩

theorem matches_plus_seq (p : Char → Bool) (r : Re) (w : List Char)
    (caps : List (List Char)) :
    (Re.seq (Re.plus p) r).Matches w caps ↔
      ∃ w1 w2, w1 ≠ [] ∧ (∀ c ∈ w1, p c = true) ∧ w = w1 ++ w2 ∧ r.Matches w2 caps := by
  simp only [Re.Matches]
  constructor
  · rintro ⟨w1, w2, _, _, rfl, rfl, ⟨h1, h2, rfl⟩, h⟩
    exact ⟨w1, w2, h1, h2, rfl, h⟩
  · rintro ⟨w1, w2, h1, h2, rfl, h⟩
    exact ⟨w1, w2, [], caps, rfl, rfl, ⟨h1, h2, rfl⟩, h⟩

theorem matches_cap_seq (a r : Re) (w : List Char) (caps : List (List Char)) :
    (Re.seq (Re.cap a) r).Matches w caps ↔
      ∃ w1 w2 c1 c2, a.Matches w1 c1 ∧ r.Matches w2 c2 ∧ w = w1 ++ w2 ∧
        caps = w1 :: (c1 ++ c2) := by
  simp only [Re.Matches]
  constructor
  · rintro ⟨w1, w2, _, c2, rfl, rfl, ⟨c1, rfl, h1⟩, h2⟩
    exact ⟨w1, w2, c1, c2, h1, h2, rfl, rfl⟩
  · rintro ⟨w1, w2, c1, c2, h1, h2, rfl, rfl⟩
    exact ⟨w1, w2, w1 :: c1, c2, rfl, rfl, ⟨c1, rfl, h1⟩, h2⟩

/-- The language of the target pattern. -/
theorem target_matches (w : List Char) (caps : List (List Char)) :
    changelogTargetRegexPattern.Matches w caps ↔
      ∃ x wd dg y, x ≠ '\n' ∧ y ≠ '\n' ∧ wd ≠ [] ∧ (∀ c ∈ wd, isWordDigitHyphen c = true) ∧
        dg ≠ [] ∧ (∀ c ∈ dg, isDigit c = true) ∧
        w = "mdd".data ++ x :: (wd ++ "-MDT".data ++ dg) ++ y :: "changelog_users=".data ∧
        caps = [wd ++ "-MDT".data ++ dg] := by
  simp only [changelogTargetRegexPattern, Re.cat, matches_str_seq, matches_dot_seq,
    matches_plus_seq, matches_cap_seq, matches_eps]
  constructor
  · rintro ⟨_, rfl, x, _, hx, rfl, _, _, _, _, ⟨wd, _, hwd, hwd', rfl, _, rfl, dg, _, hdg,
      hdg', rfl, rfl, rfl⟩, ⟨y, _, hy, rfl, _, rfl, rfl, rfl⟩, rfl, rfl⟩
    exact ⟨x, wd, dg, y, hx, hy, hwd, hwd', hdg, hdg', by simp, by simp⟩
  · rintro ⟨x, wd, dg, y, hx, hy, hwd, hwd', hdg, hdg', rfl, rfl⟩
    exact ⟨_, rfl, x, _, hx, rfl, wd ++ "-MDT".data ++ dg, y :: "changelog_users=".data, [], [],
      ⟨wd, "-MDT".data ++ dg, hwd, hwd', by simp, dg, rfl, dg, [], hdg, hdg', by simp, rfl,
        rfl⟩,
      ⟨y, "changelog_users=".data, hy, rfl, [], by simp, rfl, rfl⟩, by simp, rfl⟩

/-- The language of the current-index pattern. -/
theorem currentIndex_matches (w : List Char) (caps : List (List Char)) :
    changelogCurrentIndexRegexPattern.Matches w caps ↔
      ∃ dg, dg ≠ [] ∧ (∀ c ∈ dg, isDigit c = true) ∧
        w = "current index: ".data ++ dg ∧ caps = [dg] := by
  simp only [changelogCurrentIndexRegexPattern, Re.cat, matches_str_seq, matches_cap_seq,
    matches_eps]
  simp only [Re.Matches]
  constructor
  · rintro ⟨_, rfl, dg, _, _, _, ⟨hdg, hdg', rfl⟩, ⟨rfl, rfl⟩, rfl, rfl⟩
    exact ⟨dg, hdg, hdg', by simp, by simp⟩
  · rintro ⟨dg, hdg, hdg', rfl, rfl⟩
    exact ⟨_, rfl, dg, [], [], [], ⟨hdg, hdg', rfl⟩, ⟨rfl, rfl⟩, by simp, rfl⟩

/-- The language of the user pattern. -/
theorem user_matches (w : List Char) (caps : List (List Char)) :
    changelogUserRegexPattern.Matches w caps ↔
      ∃ d1 sp d2 d3, d1 ≠ [] ∧ (∀ c ∈ d1, isDigit c = true) ∧
        sp ≠ [] ∧ (∀ c ∈ sp, isPerlSpace c = true) ∧
        d2 ≠ [] ∧ (∀ c ∈ d2, isDigit c = true) ∧ d3 ≠ [] ∧ (∀ c ∈ d3, isDigit c = true) ∧
        w = "cl".data ++ d1 ++ sp ++ d2 ++ " (".data ++ d3 ++ ")".data ∧
        caps = ["cl".data ++ d1, d2, d3] := by
  simp only [changelogUserRegexPattern, Re.cat, matches_str_seq, matches_plus_seq,
    matches_cap_seq, matches_eps]
  simp only [Re.Matches]
  constructor
  · rintro ⟨_, _, _, _, ⟨_, rfl, d1, _, h1, h1', rfl, rfl, rfl⟩, ⟨sp, _, hs, hs', rfl, d2, _,
      _, _, ⟨h2, h2', rfl⟩, ⟨_, rfl, d3, _, _, _, ⟨h3, h3', rfl⟩, ⟨_, rfl, rfl, rfl⟩, rfl,
      rfl⟩, rfl, rfl⟩, rfl, rfl⟩
    exact ⟨d1, sp, d2, d3, h1, h1', hs, hs', h2, h2', h3, h3', by simp, by simp⟩
  · rintro ⟨d1, sp, d2, d3, h1, h1', hs, hs', h2, h2', h3, h3', rfl, rfl⟩
    exact ⟨"cl".data ++ d1, sp ++ d2 ++ " (".data ++ d3 ++ ")".data, [], [d2, d3],
      ⟨_, rfl, d1, [], h1, h1', by simp, rfl, rfl⟩,
      ⟨sp, _, hs, hs', by simp, d2, " (".data ++ d3 ++ ")".data, [], [d3], ⟨h2, h2', rfl⟩,
        ⟨_, rfl, d3, ")".data, [], [], ⟨h3, h3', rfl⟩, ⟨[], by simp, rfl, rfl⟩, rfl, rfl⟩,
        rfl, rfl⟩, by simp, rfl⟩

/-! ## Target extraction -/

theorem isWordDigitHyphen_ne_eq (c : Char) (h : isWordDigitHyphen c = true) : c ≠ '=' := by
  rintro rfl
  exact absurd h (by decide)

theorem isWordDigitHyphen_of_isDigit (c : Char) (h : isDigit c = true) :
    isWordDigitHyphen c = true := by
  simp [isWordDigitHyphen, h]

/-- A match returned by the target pattern has exactly one group, of the pattern's shape,
and stands in the text. -/
theorem target_find_some (s : List Char) (m : List String)
    (h : findSubmatch changelogTargetRegexPattern s = some m) :
    ∃ pre x wd dg y post, x ≠ '\n' ∧ y ≠ '\n' ∧ wd ≠ [] ∧
      (∀ c ∈ wd, isWordDigitHyphen c = true) ∧ dg ≠ [] ∧ (∀ c ∈ dg, isDigit c = true) ∧
      s = pre ++ ("mdd".data ++ x :: (wd ++ "-MDT".data ++ dg) ++ y :: "changelog_users=".data)
        ++ post ∧
      m = [String.mk ("mdd".data ++ x :: (wd ++ "-MDT".data ++ dg)
            ++ y :: "changelog_users=".data),
          String.mk (wd ++ "-MDT".data ++ dg)] := by
  obtain ⟨a, b, caps, rest, rfl, hmem, rfl⟩ := findSubmatch_some_imp _ s m h
  obtain ⟨w, rfl, hm⟩ := (mem_run _ _ _ _).1 hmem
  obtain ⟨x, wd, dg, y, hx, hy, hwd, hwd', hdg, hdg', rfl, rfl⟩ := (target_matches _ _).1 hm
  refine ⟨a, x, wd, dg, y, rest, hx, hy, hwd, hwd', hdg, hdg', by simp, ?_⟩
  simp only [take_append_sub, List.map_cons, List.map_nil]

theorem target_find_none (s : List Char) :
    findSubmatch changelogTargetRegexPattern s = none ↔ ¬ ContainsTargetMatch ⟨s⟩ := by
  rw [findSubmatch_eq_none]
  constructor
  · rintro h ⟨pre, x, wd, dg, y, post, hx, hy, hwd, hwd', hdg, hdg', hs⟩
    have hs' : s = pre ++ (("mdd".data ++ x :: (wd ++ "-MDT".data ++ dg)
        ++ y :: "changelog_users=".data) ++ post) := by
      rw [← List.append_assoc]; exact hs
    have hrun := h pre _ hs'
    have hmem : ([wd ++ "-MDT".data ++ dg], post) ∈ changelogTargetRegexPattern.run
        (("mdd".data ++ x :: (wd ++ "-MDT".data ++ dg) ++ y :: "changelog_users=".data)
          ++ post) :=
      (mem_run _ _ _ _).2 ⟨_, rfl, (target_matches _ _).2
        ⟨x, wd, dg, y, hx, hy, hwd, hwd', hdg, hdg', rfl, rfl⟩⟩
    rw [hrun] at hmem
    exact absurd hmem (List.not_mem_nil _)
  · intro h a b hab
    by_contra hne
    obtain ⟨⟨caps, rest⟩, hmem⟩ := List.exists_mem_of_ne_nil _ hne
    obtain ⟨w, rfl, hm⟩ := (mem_run _ _ _ _).1 hmem
    obtain ⟨x, wd, dg, y, hx, hy, hwd, hwd', hdg, hdg', rfl, rfl⟩ := (target_matches _ _).1 hm
    exact h ⟨a, x, wd, dg, y, rest, hx, hy, hwd, hwd', hdg, hdg', by
      show s = _
      rw [hab]
      simp⟩

/-- The results of the target pattern at the head of `mdd.<name>-MDT<digits>.changelog_users=`:
there is one, and all of them capture `<name>-MDT<digits>` and consume the whole text. -/
theorem target_run_id (nm dg : List Char) (hnm : nm ≠ [])
    (hnm' : ∀ c ∈ nm, isWordDigitHyphen c = true) (hdg : dg ≠ [])
    (hdg' : ∀ c ∈ dg, isDigit c = true) :
    changelogTargetRegexPattern.run
        ("mdd".data ++ '.' :: (nm ++ "-MDT".data ++ dg) ++ '.' :: "changelog_users=".data) ≠ []
    ∧ ∀ x ∈ changelogTargetRegexPattern.run
        ("mdd".data ++ '.' :: (nm ++ "-MDT".data ++ dg) ++ '.' :: "changelog_users=".data),
      x = ([nm ++ "-MDT".data ++ dg], []) := by
  constructor
  · have hmem : ([nm ++ "-MDT".data ++ dg], []) ∈ changelogTargetRegexPattern.run
        ("mdd".data ++ '.' :: (nm ++ "-MDT".data ++ dg) ++ '.' :: "changelog_users=".data) :=
      (mem_run _ _ _ _).2 ⟨_, by simp, (target_matches _ _).2
        ⟨'.', nm, dg, '.', by decide, by decide, hnm, hnm', hdg, hdg', rfl, rfl⟩⟩
    exact List.ne_nil_of_mem hmem
  · rintro ⟨caps, rest⟩ hx
    obtain ⟨w, hw, hm⟩ := (mem_run _ _ _ _).1 hx
    obtain ⟨x, wd, dg2, y, -, -, -, -, -, -, rfl, rfl⟩ := (target_matches _ _).1 hm
    have hid : ∀ c ∈ nm ++ "-MDT".data ++ dg, c ≠ '=' := by
      intro c hc
      simp only [List.mem_append] at hc
      rcases hc with (hc | hc) | hc
      · exact isWordDigitHyphen_ne_eq c (hnm' c hc)
      · rintro rfl
        exact absurd hc (by decide)
      · exact isWordDigitHyphen_ne_eq c (isWordDigitHyphen_of_isDigit c (hdg' c hc))
    have key : ("mdd".data ++ x :: (wd ++ "-MDT".data ++ dg2) ++ y :: "changelog_users".data)
        ++ '=' :: rest
        = ("mdd".data ++ '.' :: (nm ++ "-MDT".data ++ dg) ++ '.' :: "changelog_users".data)
          ++ ['='] := by
      simpa using hw.symm
    have hnot : '=' ∉ "mdd".data ++ '.' :: (nm ++ "-MDT".data ++ dg)
        ++ '.' :: "changelog_users".data := by
      intro hmem
      simp only [List.mem_append, List.mem_cons] at hmem
      rcases hmem with (hmem | hmem | hmem) | hmem | hmem
      · exact absurd hmem (by decide)
      · exact absurd hmem (by decide)
      · exact hid '=' (by simpa [List.mem_append] using hmem) rfl
      · exact absurd hmem (by decide)
      · exact absurd hmem (by decide)
    obtain ⟨hu, hrest⟩ := append_cons_eq_append_singleton _ _ _ key hnot
    have hu' : (wd ++ "-MDT".data ++ dg2) ++ y :: "changelog_users".data
        = (nm ++ "-MDT".data ++ dg) ++ '.' :: "changelog_users".data := by
      have h1 := List.append_cancel_left
        (by simpa only [List.append_assoc, List.cons_append] using hu :
          "mdd".data ++ (x :: ((wd ++ "-MDT".data ++ dg2) ++ y :: "changelog_users".data))
          = "mdd".data ++ ('.' :: ((nm ++ "-MDT".data ++ dg) ++ '.' :: "changelog_users".data)))
      exact (List.cons.inj h1).2
    have hcap := (List.append_inj' hu' (by simp)).1
    rw [hcap, hrest]

/-- C3: for every target id `<name>-MDT<digits>`, with `<name>` a non-empty string of word
characters and hyphens and `<digits>` a non-empty string of decimal digits,
`regexCaptureChangelogTarget` applied to `mdd.<id>.changelog_users=` returns the id and no
error. -/
theorem regexCaptureChangelogTarget_id (name digits : String) (hname : name ≠ "")
    (hname' : ∀ c ∈ name.data, isWord c = true ∨ c = '-') (hdigits : digits ≠ "")
    (hdigits' : ∀ c ∈ digits.data, isDigit c = true) :
    regexCaptureChangelogTarget ("mdd." ++ (name ++ "-MDT" ++ digits) ++ ".changelog_users=")
      = (name ++ "-MDT" ++ digits, none) := by
  have hnm : name.data ≠ [] := fun h => hname (String.ext h)
  have hdg : digits.data ≠ [] := fun h => hdigits (String.ext h)
  have hnm' : ∀ c ∈ name.data, isWordDigitHyphen c = true := by
    intro c hc
    rcases hname' c hc with h | h
    · simp [isWordDigitHyphen, h]
    · simp [isWordDigitHyphen, h]
  obtain ⟨hne, hall⟩ := target_run_id name.data digits.data hnm hnm' hdg hdigits'
  have hsub := submatchAt_of_unique _ _ _ _ hne hall
  have hfind := findSubmatch_eq_some _ _ _ _ hsub []
    (fun a1 a2 h hne2 => absurd (List.append_eq_nil.1 h.symm).2 hne2)
  have hdata : ("mdd." ++ (name ++ "-MDT" ++ digits) ++ ".changelog_users=").data
      = [] ++ ("mdd".data ++ '.' :: (name.data ++ "-MDT".data ++ digits.data)
        ++ '.' :: "changelog_users=".data) := by
    simp [String.data_append]
  unfold regexCaptureChangelogTarget FindStringSubmatch
  rw [hdata, hfind]
  simp only [List.map_cons, List.map_nil, List.length_cons, List.length_nil, if_true]
  refine Prod.ext ?_ rfl
  apply String.ext
  simp [String.data_append]

/-- Instance of C3: the text of `TestChangelogTarget` yields `lustre-MDT0000`. -/
theorem regexCaptureChangelogTarget_id_witness :
    "lustre" ≠ "" ∧ "0000" ≠ "" ∧
    regexCaptureChangelogTarget "mdd.lustre-MDT0000.changelog_users="
      = ("lustre-MDT0000", none) :=
  ⟨by decide, by decide,
    regexCaptureChangelogTarget_id "lustre" "0000" (by decide) (by decide) (by decide)
      (by decide)⟩

/-- The two outcomes of target extraction: the error with the empty target when the
pattern matches nowhere, and otherwise the group of a match standing in the text. -/
theorem regexCaptureChangelogTarget_cases (text : String) :
    (¬ ContainsTargetMatch text ∧ regexCaptureChangelogTarget text
        = ("", some (.errorString "no target found in changelogs")))
    ∨ (ContainsTargetMatch text ∧ ∃ pre x wd dg y post, x ≠ '\n' ∧ y ≠ '\n' ∧ wd ≠ [] ∧
        (∀ c ∈ wd, isWordDigitHyphen c = true) ∧ dg ≠ [] ∧ (∀ c ∈ dg, isDigit c = true) ∧
        text.data = pre ++ ("mdd".data ++ x :: (wd ++ "-MDT".data ++ dg)
          ++ y :: "changelog_users=".data) ++ post ∧
        regexCaptureChangelogTarget text = (String.mk (wd ++ "-MDT".data ++ dg), none)) := by
  cases hf : findSubmatch changelogTargetRegexPattern text.data with
  | none =>
    left
    refine ⟨(target_find_none text.data).1 hf, ?_⟩
    simp only [regexCaptureChangelogTarget, FindStringSubmatch, hf]
  | some m =>
    right
    obtain ⟨pre, x, wd, dg, y, post, hx, hy, hwd, hwd', hdg, hdg', hs, rfl⟩ :=
      target_find_some _ _ hf
    refine ⟨⟨pre, x, wd, dg, y, post, hx, hy, hwd, hwd', hdg, hdg', hs⟩,
      pre, x, wd, dg, y, post, hx, hy, hwd, hwd', hdg, hdg', hs, ?_⟩
    simp only [regexCaptureChangelogTarget, FindStringSubmatch, hf, List.length_cons,
      List.length_nil, if_true]
    rfl

/-- C4: `regexCaptureChangelogTarget` returns the error `no target found in changelogs`
with the empty target exactly when the text contains no match of the target pattern, and
returns no error exactly when it contains one; a successful result is never the empty
string; and the text `mdd..changelog_users=`, whose target token is empty, is rejected. -/
theorem regexCaptureChangelogTarget_error_iff (text : String) :
    (regexCaptureChangelogTarget text = ("", some (.errorString "no target found in changelogs"))
      ↔ ¬ ContainsTargetMatch text)
    ∧ ((regexCaptureChangelogTarget text).2 = none ↔ ContainsTargetMatch text)
    ∧ (∀ t, regexCaptureChangelogTarget text = (t, none) → t ≠ "")
    ∧ regexCaptureChangelogTarget "mdd..changelog_users="
      = ("", some (.errorString "no target found in changelogs")) := by
  refine ⟨?_, ?_, ?_, by decide⟩
  · rcases regexCaptureChangelogTarget_cases text with ⟨hno, hr⟩ | ⟨hyes, _, _, _, _, _, _, _,
      _, _, _, _, _, _, hr⟩
    · exact ⟨fun _ => hno, fun _ => hr⟩
    · rw [hr]
      exact ⟨fun h => absurd (congrArg Prod.snd h) (by simp), fun h => absurd hyes h⟩
  · rcases regexCaptureChangelogTarget_cases text with ⟨hno, hr⟩ | ⟨hyes, _, _, _, _, _, _, _,
      _, _, _, _, _, _, hr⟩
    · rw [hr]
      exact ⟨fun h => absurd h (by simp), fun h => absurd h hno⟩
    · rw [hr]
      exact ⟨fun _ => hyes, fun _ => rfl⟩
  · intro t ht
    rcases regexCaptureChangelogTarget_cases text with ⟨_, hr⟩ | ⟨_, _, _, wd, dg, _, _, _, _,
      hwd, _, _, _, _, hr⟩
    · rw [hr] at ht
      exact absurd (congrArg Prod.snd ht) (by simp)
    · rw [hr] at ht
      have ht' : String.mk (wd ++ "-MDT".data ++ dg) = t := congrArg Prod.fst ht
      rw [← ht']
      intro h
      have hd := congrArg String.data h
      simp only [List.append_assoc] at hd
      exact hwd (List.append_eq_nil.1 hd).1

/-- Instance of C4: the text of `TestChangelogTarget` contains a match of the target
pattern, and the text with the empty target token contains none. -/
theorem regexCaptureChangelogTarget_error_iff_witness :
    ContainsTargetMatch "mdd.lustre-MDT0000.changelog_users="
    ∧ ¬ ContainsTargetMatch "mdd..changelog_users=" :=
  ⟨(regexCaptureChangelogTarget_error_iff "mdd.lustre-MDT0000.changelog_users=").2.1.1
      (by decide),
    (regexCaptureChangelogTarget_error_iff "mdd..changelog_users=").1.1 (by decide)⟩

/-! ## `ParseFloat` on exactly representable numbers -/

theorem ulpExponent_le : ∀ (fuel n : Nat),
    ulpExponent fuel n = 0 ∨ 2 ^ (52 + ulpExponent fuel n) ≤ n
  | 0, _ => Or.inl rfl
  | fuel + 1, n => by
    unfold ulpExponent
    by_cases h : n < 2 ^ 53
    · left; rw [if_pos h]
    · right
      rw [if_neg h]
      rcases ulpExponent_le fuel (n / 2) with h0 | h1
      · rw [h0]
        exact Nat.le_of_not_lt h
      · have h2 := (Nat.le_div_iff_mul_le (by decide : 0 < 2)).1 h1
        calc 2 ^ (52 + (ulpExponent fuel (n / 2) + 1))
            = 2 ^ (52 + ulpExponent fuel (n / 2)) * 2 := by rw [← Nat.add_assoc, Nat.pow_succ]
          _ ≤ n := h2

/-- With fuel `n` the search of `ulpExponent` ends: the significand `n / 2 ^ e` fits into
53 bits. -/
theorem ulpExponent_lt : ∀ (fuel n : Nat), n ≤ fuel →
    n / 2 ^ ulpExponent fuel n < 2 ^ 53
  | 0, n, h => by
    have : n = 0 := Nat.le_zero.1 h
    subst this
    decide
  | fuel + 1, n, h => by
    unfold ulpExponent
    by_cases hn : n < 2 ^ 53
    · rw [if_pos hn, Nat.pow_zero, Nat.div_one]
      exact hn
    · rw [if_neg hn]
      have h2 : n / 2 ≤ fuel := by
        have h53 : 2 ^ 53 ≤ n := Nat.le_of_not_lt hn
        have : (2 : Nat) ^ 53 = 9007199254740992 := by norm_num
        omega
      have ih := ulpExponent_lt fuel (n / 2) h2
      rw [Nat.pow_succ, Nat.mul_comm, ← Nat.div_div_eq_div_mul]
      exact ih

theorem roundFloat64_exact (n : Nat) (h : exactFloat64 n) : roundFloat64 n = n := by
  obtain ⟨-, m, k, hm, hn⟩ := h
  have hdvd' : ∀ e, (e = 0 ∨ 2 ^ (52 + e) ≤ n) → 2 ^ e ∣ n := by
    intro e he
    rcases he with h0 | h1
    · rw [h0]; exact one_dvd _
    · have hk : e ≤ k := by
        by_contra hlt
        have hlt' : k < e := Nat.lt_of_not_le hlt
        have h3 : m * 2 ^ k < 2 ^ 53 * 2 ^ k :=
          Nat.mul_lt_mul_of_pos_right hm (Nat.two_pow_pos k)
        have h4 : 2 ^ 53 * 2 ^ k ≤ 2 ^ (52 + e) := by
          rw [← Nat.pow_add]
          exact Nat.pow_le_pow_right (by decide) (by omega)
        have h5 : 2 ^ (52 + e) ≤ m * 2 ^ k := hn ▸ h1
        exact absurd (Nat.lt_of_lt_of_le h3 h4) (Nat.not_lt.2 h5)
      rw [hn]
      exact Dvd.dvd.mul_left (Nat.pow_dvd_pow 2 hk) m
  have hdvd : 2 ^ ulpExponent n n ∣ n := hdvd' _ (ulpExponent_le n n)
  have hr : n % 2 ^ ulpExponent n n = 0 := Nat.mod_eq_zero_of_dvd hdvd
  have hpos : 0 < 2 ^ ulpExponent n n := Nat.two_pow_pos _
  unfold roundFloat64
  simp only [hr, Nat.mul_zero]
  rw [if_neg (by
    rintro (h | ⟨h, -⟩)
    · exact absurd h (Nat.not_lt_zero _)
    · rw [← h] at hpos; exact absurd hpos (Nat.lt_irrefl _))]
  exact Nat.div_mul_cancel hdvd

theorem ParseFloat_exact (d : List Char) (hd : d ≠ []) (hd' : ∀ c ∈ d, isDigit c = true)
    (h : exactFloat64 (decimalValue d)) :
    ParseFloat (String.mk d) = .ok ((decimalValue d : Nat) : Int) := by
  have hall : d.all isDigit = true := List.all_eq_true.2 hd'
  unfold ParseFloat
  rw [if_pos ⟨hd, hall⟩, roundFloat64_exact _ h, if_pos h.1]

theorem ParseFloat_error (s : String) (err : Error) (h : ParseFloat s = .error err) :
    ∃ reason, err = .numError "ParseFloat" s reason := by
  unfold ParseFloat at h
  split at h
  · split at h
    · exact absurd h (by simp)
    · exact ⟨_, (Except.error.inj h).symm⟩
  · exact ⟨_, (Except.error.inj h).symm⟩

/-! ## Current-index extraction -/

theorem startsWithThenDigit_iff : ∀ (l s : List Char),
    startsWithThenDigit l s = true ↔ ∃ c post, isDigit c = true ∧ s = l ++ c :: post
  | [], [] => by simp [startsWithThenDigit]
  | [], c :: s => by
    simp only [startsWithThenDigit, List.nil_append, List.cons.injEq]
    constructor
    · intro h; exact ⟨c, s, h, rfl, rfl⟩
    · rintro ⟨_, _, h, rfl, rfl⟩; exact h
  | a :: l, [] => by simp [startsWithThenDigit]
  | a :: l, c :: s => by
    simp only [startsWithThenDigit, Bool.and_eq_true, beq_iff_eq, startsWithThenDigit_iff l s,
      List.cons_append, List.cons.injEq]
    constructor
    · rintro ⟨rfl, d, post, hd, rfl⟩; exact ⟨d, post, hd, rfl, rfl⟩
    · rintro ⟨d, post, hd, rfl, rfl⟩; exact ⟨rfl, d, post, hd, rfl⟩

/-- The current-index pattern matches at the head of a text exactly when the text begins
with `current index: ` and a digit. -/
theorem currentIndex_run_ne_nil (s : List Char) :
    changelogCurrentIndexRegexPattern.run s ≠ [] ↔
      startsWithThenDigit "current index: ".data s = true := by
  rw [startsWithThenDigit_iff]
  constructor
  · intro hne
    obtain ⟨⟨caps, rest⟩, hmem⟩ := List.exists_mem_of_ne_nil _ hne
    obtain ⟨w, rfl, hm⟩ := (mem_run _ _ _ _).1 hmem
    obtain ⟨dg, hdg, hdg', rfl, rfl⟩ := (currentIndex_matches _ _).1 hm
    cases dg with
    | nil => exact absurd rfl hdg
    | cons c dg =>
      exact ⟨c, dg ++ rest, hdg' c (List.mem_cons_self _ _), by simp⟩
  · rintro ⟨c, post, hc, rfl⟩
    have hmem : ([[c]], post) ∈ changelogCurrentIndexRegexPattern.run
        ("current index: ".data ++ c :: post) :=
      (mem_run _ _ _ _).2 ⟨"current index: ".data ++ [c], by simp,
        (currentIndex_matches _ _).2 ⟨[c], by simp, by simpa using hc, rfl, rfl⟩⟩
    exact List.ne_nil_of_mem hmem

theorem plusRun_head (p : Char → Bool) (post : List Char)
    (hpost : ∀ c t, post = c :: t → p c = false) :
    ∀ d : List Char, d ≠ [] → (∀ c ∈ d, p c = true) →
      ∃ tl, plusRun p (d ++ post) = post :: tl
  | [], h, _ => absurd rfl h
  | [c], _, hd => by
    have hc : p c = true := hd c (List.mem_cons_self _ _)
    have hnil : plusRun p post = [] := by
      cases post with
      | nil => rfl
      | cons e t => simp [plusRun, hpost e t rfl]
    exact ⟨[], by simp [plusRun, hc, hnil]⟩
  | c :: e :: d, _, hd => by
    have hc : p c = true := hd c (List.mem_cons_self _ _)
    obtain ⟨tl, htl⟩ := plusRun_head p post hpost (e :: d) (by simp)
      (fun x hx => hd x (List.mem_cons_of_mem _ hx))
    refine ⟨tl ++ [e :: d ++ post], ?_⟩
    rw [List.cons_append, plusRun, if_pos hc, htl]
    rfl

theorem run_chars_append : ∀ (l s : List Char), (Re.chars l).run (l ++ s) = [([], s)]
  | [], s => rfl
  | c :: l, s => by
    simp only [Re.chars, List.cons_append, Re.run, if_true, List.flatMap_cons,
      List.flatMap_nil, run_chars_append l s, List.map_cons, List.map_nil, List.append_nil]

/-- The match of the current-index pattern at the head of `current index: <digits>`
followed by something that is not a digit: the whole digit run is captured. -/
theorem currentIndex_submatchAt (d post : List Char) (hd : d ≠ [])
    (hd' : ∀ c ∈ d, isDigit c = true) (hpost : ∀ c t, post = c :: t → isDigit c = false) :
    submatchAt changelogCurrentIndexRegexPattern ("current index: ".data ++ (d ++ post))
      = some ([String.mk ("current index: ".data ++ d), String.mk d],
          ("current index: ".data ++ d).length) := by
  obtain ⟨tl, htl⟩ := plusRun_head isDigit post hpost d hd hd'
  have hrun : ∃ tl', changelogCurrentIndexRegexPattern.run
      ("current index: ".data ++ (d ++ post)) = ([d], post) :: tl' := by
    simp only [changelogCurrentIndexRegexPattern, Re.cat, Re.str]
    rw [Re.run, run_chars_append]
    simp only [List.flatMap_cons, List.flatMap_nil, List.append_nil, List.nil_append]
    rw [Re.run, Re.run, Re.run, htl]
    simp only [List.map_cons, List.flatMap_cons, Re.run, take_append_sub]
    exact ⟨_, rfl⟩
  obtain ⟨tl', htl'⟩ := hrun
  unfold submatchAt
  rw [htl']
  have h1 : ("current index: ".data ++ (d ++ post))
      = ("current index: ".data ++ d) ++ post := by simp
  simp only [List.head?_cons]
  rw [h1, take_append_sub]
  simp only [List.map_cons, List.map_nil, List.length_append, Nat.add_sub_cancel]

/-- C5: when the leftmost occurrence of `current index: ` immediately followed by a digit
stands after `pre` and is followed by the maximal digit run `d`, whose value is exactly
representable as a `float64`, `regexCaptureChangelogCurrentIndex` returns the number
denoted by `d` and no error, whatever the rest `post` of the text is (digits of user
records on later lines included). -/
theorem regexCaptureChangelogCurrentIndex_leftmost (text : String) (pre d post : List Char)
    (htext : text.data = pre ++ "current index: ".data ++ d ++ post)
    (hd : d ≠ []) (hd' : ∀ c ∈ d, isDigit c = true)
    (hmax : startsWithThenDigit [] post = false)
    (hleft : ∀ k, k < pre.length →
      startsWithThenDigit "current index: ".data (text.data.drop k) = false)
    (hexact : exactFloat64 (decimalValue d)) :
    regexCaptureChangelogCurrentIndex text = (((decimalValue d : Nat) : Int), none) := by
  have hdata : text.data = pre ++ ("current index: ".data ++ (d ++ post)) := by
    rw [htext]; simp
  have hmax' : ∀ c t, post = c :: t → isDigit c = false := by
    intro c t hp
    rw [hp] at hmax
    exact hmax
  have hfind := findSubmatch_eq_some _ _ _ _ (currentIndex_submatchAt d post hd hd' hmax') pre
    (by
      intro a1 a2 ha hne
      by_contra hrun
      have hs := (currentIndex_run_ne_nil _).1 hrun
      have hk : a1.length < pre.length := by
        rw [ha, List.length_append]
        have : 0 < a2.length := List.length_pos.2 hne
        omega
      have hdrop : text.data.drop a1.length
          = a2 ++ ("current index: ".data ++ (d ++ post)) := by
        rw [hdata, ha, List.append_assoc, List.drop_left]
      have := hleft _ hk
      rw [hdrop, hs] at this
      exact absurd this (by simp))
  unfold regexCaptureChangelogCurrentIndex FindStringSubmatch
  rw [hdata, hfind]
  simp only [List.length_cons, List.length_nil, if_true]
  have hget : [String.mk ("current index: ".data ++ d), String.mk d].getD 1 "" = String.mk d :=
    rfl
  rw [hget, ParseFloat_exact d hd hd' hexact]

/-- Instance of C5: the text of `TestChangelogCurrentIndex`, with users at index 0 and 34 on
later lines, yields 34, and the text with `current index: 0` yields 0. -/
theorem regexCaptureChangelogCurrentIndex_leftmost_witness :
    exactFloat64 (decimalValue "34".data)
    ∧ regexCaptureChangelogCurrentIndex testBlock = (34, none)
    ∧ regexCaptureChangelogCurrentIndex "mdd.lustre-MDT0000.changelog_users=\n\tcurrent index: 0"
      = (0, none) :=
  ⟨⟨by decide, 34, 0, by decide, by decide⟩,
    regexCaptureChangelogCurrentIndex_leftmost testBlock
      "mdd.lustre-MDT0000.changelog_users=\n\t".data "34".data
      "\n\tID    index (idle seconds)\n\tcl1   0 (1725676)\n\tcl2   34 (28)".data
      (by decide) (by decide) (by decide) (by decide) (by decide)
      ⟨by decide, 34, 0, by decide, by decide⟩,
    regexCaptureChangelogCurrentIndex_leftmost
      "mdd.lustre-MDT0000.changelog_users=\n\tcurrent index: 0"
      "mdd.lustre-MDT0000.changelog_users=\n\t".data "0".data []
      (by decide) (by decide) (by decide) (by decide) (by decide)
      ⟨by decide, 0, 0, by decide, by decide⟩⟩

theorem currentIndex_find_none (s : List Char) :
    findSubmatch changelogCurrentIndexRegexPattern s = none ↔ ¬ ContainsCurrentIndex ⟨s⟩ := by
  rw [findSubmatch_eq_none]
  constructor
  · rintro h ⟨pre, c, post, hc, hs⟩
    have hs' : s = pre ++ ("current index: ".data ++ c :: post) := by
      rw [← List.append_assoc]; exact hs
    exact (currentIndex_run_ne_nil _).2
      ((startsWithThenDigit_iff _ _).2 ⟨c, post, hc, rfl⟩) (h pre _ hs')
  · intro h a b hab
    by_contra hne
    obtain ⟨c, post, hc, rfl⟩ :=
      (startsWithThenDigit_iff _ _).1 ((currentIndex_run_ne_nil _).1 hne)
    exact h ⟨a, c, post, hc, by
      show s = _
      rw [hab]
      simp⟩

/-- A match returned by the current-index pattern has exactly one group, a non-empty string
of decimal digits: the index 1 read by `regexCaptureChangelogCurrentIndex` is in range, and
`ParseFloat` receives a digit string. -/
theorem currentIndex_find_some (s : List Char) (m : List String)
    (h : findSubmatch changelogCurrentIndexRegexPattern s = some m) :
    ∃ whole dg, m = [whole, String.mk dg] ∧ dg ≠ [] ∧ ∀ c ∈ dg, isDigit c = true := by
  obtain ⟨a, b, caps, rest, rfl, hmem, rfl⟩ := findSubmatch_some_imp _ s m h
  obtain ⟨w, rfl, hm⟩ := (mem_run _ _ _ _).1 hmem
  obtain ⟨dg, hdg, hdg', rfl, rfl⟩ := (currentIndex_matches _ _).1 hm
  exact ⟨_, dg, rfl, hdg, hdg'⟩

/-- C6: `regexCaptureChangelogCurrentIndex` returns the error
`no current index found for changelogs` with the value -1 exactly when the text contains no
occurrence of `current index: ` immediately followed by a decimal digit; this error differs
from the error `no target found in changelogs`, and target extraction never returns it. -/
theorem regexCaptureChangelogCurrentIndex_error_iff (text : String) :
    (regexCaptureChangelogCurrentIndex text
        = (-1, some (.errorString "no current index found for changelogs"))
      ↔ ¬ ContainsCurrentIndex text)
    ∧ Error.errorString "no current index found for changelogs"
      ≠ Error.errorString "no target found in changelogs"
    ∧ (∀ text', (regexCaptureChangelogTarget text').2
      ≠ some (.errorString "no current index found for changelogs")) := by
  refine ⟨?_, by decide, ?_⟩
  · cases hf : findSubmatch changelogCurrentIndexRegexPattern text.data with
    | none =>
      have hno := (currentIndex_find_none text.data).1 hf
      have hr : regexCaptureChangelogCurrentIndex text
          = (-1, some (.errorString "no current index found for changelogs")) := by
        simp only [regexCaptureChangelogCurrentIndex, FindStringSubmatch, hf]
      exact ⟨fun _ => hno, fun _ => hr⟩
    | some m =>
      have hyes : ¬ ¬ ContainsCurrentIndex text := fun hno => by
        rw [(currentIndex_find_none text.data).2 hno] at hf
        exact absurd hf (by simp)
      obtain ⟨whole, dg, rfl, -, -⟩ := currentIndex_find_some _ _ hf
      refine ⟨fun h => ?_, fun h => absurd h hyes⟩
      exfalso
      simp only [regexCaptureChangelogCurrentIndex, FindStringSubmatch, hf, List.length_cons,
        List.length_nil, if_true] at h
      have hget : [whole, String.mk dg].getD 1 "" = String.mk dg := rfl
      rw [hget] at h
      cases hp : ParseFloat (String.mk dg) with
      | error err =>
        obtain ⟨reason, rfl⟩ := ParseFloat_error _ _ hp
        rw [hp] at h
        exact absurd (congrArg Prod.snd h) (by simp)
      | ok v =>
        rw [hp] at h
        exact absurd (congrArg Prod.snd h) (by simp)
  · intro text'
    rcases regexCaptureChangelogTarget_cases text' with ⟨_, hr⟩ | ⟨_, _, _, _, _, _, _, _, _,
      _, _, _, _, _, hr⟩
    · rw [hr]; decide
    · rw [hr]; simp

/-- Instance of C6: the third text of `TestChangelogCurrentIndex`, without a current-index
line, contains no occurrence and gives the error; the first text contains one. -/
theorem regexCaptureChangelogCurrentIndex_error_iff_witness :
    ¬ ContainsCurrentIndex "mdd.lustre-MDT0000.changelog_users=\n\tID    index (idle seconds)"
    ∧ ContainsCurrentIndex testBlock :=
  ⟨(regexCaptureChangelogCurrentIndex_error_iff
      "mdd.lustre-MDT0000.changelog_users=\n\tID    index (idle seconds)").1.1 (by decide),
    not_not.1 fun h =>
      absurd ((regexCaptureChangelogCurrentIndex_error_iff testBlock).1.2 h) (by decide)⟩

/-! ## User-record extraction -/

theorem findAllSubmatch_drop (r : Re) : ∀ (s : List Char) (k : Nat),
    findAllSubmatch r s k = findAllSubmatch r (s.drop k) 0
  | _, 0 => rfl
  | [], k + 1 => by simp [findAllSubmatch]
  | _ :: t, k + 1 => by
    rw [findAllSubmatch, List.drop_succ_cons]
    exact findAllSubmatch_drop r t k

theorem findAllSubmatch_nomatch (r : Re) (c : Char) (t : List Char)
    (h : r.run (c :: t) = []) : findAllSubmatch r (c :: t) 0 = findAllSubmatch r t 0 := by
  rw [findAllSubmatch, (submatchAt_eq_none r _).2 h]

theorem findAllSubmatch_match (r : Re) (w rest : List Char) (m : List String) (hw : w ≠ [])
    (h : submatchAt r (w ++ rest) = some (m, w.length)) :
    findAllSubmatch r (w ++ rest) 0 = m :: findAllSubmatch r rest 0 := by
  cases w with
  | nil => exact absurd rfl hw
  | cons c w =>
    rw [List.cons_append] at h ⊢
    rw [findAllSubmatch, h]
    simp only [List.length_cons, Nat.add_sub_cancel]
    rw [findAllSubmatch_drop, List.drop_left]

theorem head_mem_of_append : ∀ (a rest : List Char), a ≠ [] →
    ∀ c t, a ++ rest = c :: t → c ∈ a
  | [], _, h, _, _, _ => absurd rfl h
  | d :: a, rest, _, c, t, h => by
    rw [List.cons_append] at h
    rw [(List.cons.inj h).1]
    exact List.mem_cons_self _ _

theorem isDigit_false_of_isPerlSpace (c : Char) (h : isPerlSpace c = true) :
    isDigit c = false := by
  simp only [isPerlSpace, Bool.or_eq_true, beq_iff_eq] at h
  rcases h with (((rfl | rfl) | rfl) | rfl) | rfl <;> decide

theorem isPerlSpace_false_of_isDigit (c : Char) (h : isDigit c = true) :
    isPerlSpace c = false := by
  cases hs : isPerlSpace c with
  | false => rfl
  | true => rw [isDigit_false_of_isPerlSpace c hs] at h; exact absurd h (by decide)

/-- The results of the user pattern at the head of a record line followed by any text:
there is one, and all of them capture the id, the index and the idle seconds and leave the
text after the line. -/
theorem user_run_line (n ix idl rest : List Char)
    (hn : n ≠ []) (hn' : ∀ c ∈ n, isDigit c = true)
    (hix : ix ≠ []) (hix' : ∀ c ∈ ix, isDigit c = true)
    (hidl : idl ≠ []) (hidl' : ∀ c ∈ idl, isDigit c = true) :
    changelogUserRegexPattern.run
        (("cl".data ++ n ++ "   ".data ++ ix ++ " (".data ++ idl ++ ")".data) ++ rest) ≠ []
    ∧ ∀ x ∈ changelogUserRegexPattern.run
        (("cl".data ++ n ++ "   ".data ++ ix ++ " (".data ++ idl ++ ")".data) ++ rest),
      x = (["cl".data ++ n, ix, idl], rest) := by
  constructor
  · have hmem : (["cl".data ++ n, ix, idl], rest) ∈ changelogUserRegexPattern.run
        (("cl".data ++ n ++ "   ".data ++ ix ++ " (".data ++ idl ++ ")".data) ++ rest) :=
      (mem_run _ _ _ _).2 ⟨_, rfl, (user_matches _ _).2
        ⟨n, "   ".data, ix, idl, hn, hn', by decide, by decide, hix, hix', hidl, hidl', rfl,
          rfl⟩⟩
    exact List.ne_nil_of_mem hmem
  · rintro ⟨caps, rest'⟩ hx
    obtain ⟨w, hw, hm⟩ := (mem_run _ _ _ _).1 hx
    obtain ⟨d1, sp, d2, d3, hd1, hd1', hsp, hsp', hd2, hd2', hd3, hd3', rfl, rfl⟩ :=
      (user_matches _ _).1 hm
    have hw' : "cl".data ++ (n ++ ("   ".data ++ (ix ++ (" (".data ++ (idl ++
          (")".data ++ rest))))))
        = "cl".data ++ (d1 ++ (sp ++ (d2 ++ (" (".data ++ (d3 ++ (")".data ++ rest')))))) := by
      simpa only [List.append_assoc] using hw
    have h1 := List.append_cancel_left hw'
    have spaceNoDigit : ∀ c ∈ "   ".data, isDigit c = false := by decide
    have parenNoDigit : ∀ c ∈ " (".data, isDigit c = false := by decide
    have closeNoDigit : ∀ c ∈ ")".data, isDigit c = false := by decide
    obtain ⟨e1, h2⟩ := run_split_unique isDigit n d1 _ _ hn' hd1'
      (fun c t h => spaceNoDigit c (head_mem_of_append _ _ (by decide) c t h))
      (fun c t h => isDigit_false_of_isPerlSpace c
        (hsp' c (head_mem_of_append _ _ hsp c t h))) h1
    obtain ⟨e2, h3⟩ := run_split_unique isPerlSpace "   ".data sp _ _ (by decide) hsp'
      (fun c t h => isPerlSpace_false_of_isDigit c
        (hix' c (head_mem_of_append _ _ hix c t h)))
      (fun c t h => isPerlSpace_false_of_isDigit c
        (hd2' c (head_mem_of_append _ _ hd2 c t h))) h2
    obtain ⟨e3, h4⟩ := run_split_unique isDigit ix d2 _ _ hix' hd2'
      (fun c t h => parenNoDigit c (head_mem_of_append _ _ (by decide) c t h))
      (fun c t h => parenNoDigit c (head_mem_of_append _ _ (by decide) c t h)) h3
    have h5 := List.append_cancel_left h4
    obtain ⟨e4, h6⟩ := run_split_unique isDigit idl d3 _ _ hidl' hd3'
      (fun c t h => closeNoDigit c (head_mem_of_append _ _ (by decide) c t h))
      (fun c t h => closeNoDigit c (head_mem_of_append _ _ (by decide) c t h)) h5
    have h7 := List.append_cancel_left h6
    rw [← e1, ← e3, ← e4, h7]

theorem user_run_cl (s : List Char) (h : changelogUserRegexPattern.run s ≠ []) :
    ∃ t, s = 'c' :: 'l' :: t := by
  obtain ⟨⟨caps, rest⟩, hmem⟩ := List.exists_mem_of_ne_nil _ h
  obtain ⟨w, rfl, hm⟩ := (mem_run _ _ _ _).1 hmem
  obtain ⟨d1, sp, d2, d3, -, -, -, -, -, -, -, -, rfl, -⟩ := (user_matches _ _).1 hm
  exact ⟨_, by simp only [List.append_assoc]; rfl⟩

theorem findAllSubmatch_mem (r : Re) : ∀ (s : List Char) (k : Nat) (m : List String),
    m ∈ findAllSubmatch r s k → ∃ a b n, s = a ++ b ∧ submatchAt r b = some (m, n)
  | [], k, m, h => by simp [findAllSubmatch] at h
  | c :: t, k + 1, m, h => by
    rw [findAllSubmatch] at h
    obtain ⟨a, b, n, hab, hs⟩ := findAllSubmatch_mem r t k m h
    exact ⟨c :: a, b, n, by rw [hab]; rfl, hs⟩
  | c :: t, 0, m, h => by
    rw [findAllSubmatch] at h
    cases hs : submatchAt r (c :: t) with
    | some x =>
      simp only [hs, List.mem_cons] at h
      rcases h with rfl | h
      · exact ⟨[], c :: t, x.2, rfl, hs⟩
      · obtain ⟨a, b, n, hab, hs'⟩ := findAllSubmatch_mem r t (x.2 - 1) m h
        exact ⟨c :: a, b, n, by rw [hab]; rfl, hs'⟩
    | none =>
      simp only [hs] at h
      obtain ⟨a, b, n, hab, hs'⟩ := findAllSubmatch_mem r t 0 m h
      exact ⟨c :: a, b, n, by rw [hab]; rfl, hs'⟩

/-- Every record returned by `regexCaptureChangelogUser` is a slice of four texts
`[whole, id, index, idle]` with `id` of the form `cl<digits>` and `index` and `idle`
non-empty strings of decimal digits: the indices 1, 2 and 3 read by
`createMDTChangelogUsersMetrics` are in range, and `ParseFloat` receives digit strings. -/
theorem regexCaptureChangelogUser_fields (text : String) (m : List String)
    (h : m ∈ regexCaptureChangelogUser text) :
    ∃ whole n ix idl, m = [String.mk whole, String.mk ("cl".data ++ n), String.mk ix,
        String.mk idl]
      ∧ (n ≠ [] ∧ ∀ c ∈ n, isDigit c = true) ∧ (ix ≠ [] ∧ ∀ c ∈ ix, isDigit c = true)
      ∧ (idl ≠ [] ∧ ∀ c ∈ idl, isDigit c = true) := by
  obtain ⟨a, b, n, -, hs⟩ := findAllSubmatch_mem _ _ _ _ h
  obtain ⟨caps, rest, hmem, rfl, -⟩ := submatchAt_eq_some _ _ _ _ hs
  obtain ⟨w, rfl, hm⟩ := (mem_run _ _ _ _).1 hmem
  obtain ⟨d1, sp, d2, d3, h1, h1', -, -, h2, h2', h3, h3', rfl, rfl⟩ := (user_matches _ _).1 hm
  exact ⟨_, d1, d2, d3, rfl, ⟨h1, h1'⟩, ⟨h2, h2'⟩, ⟨h3, h3'⟩⟩

theorem findAllSubmatch_clFree : ∀ (p rest : List Char), clFree p = true →
    findAllSubmatch changelogUserRegexPattern (p ++ rest) 0
      = findAllSubmatch changelogUserRegexPattern rest 0
  | [], _, _ => rfl
  | [c], rest, h => by
    have hc : c ≠ 'c' := by simpa [clFree] using h
    refine findAllSubmatch_nomatch _ c rest ?_
    by_contra hne
    obtain ⟨t, ht⟩ := user_run_cl _ hne
    exact hc (List.cons.inj ht).1
  | c :: d :: p, rest, h => by
    simp only [clFree, Bool.and_eq_true, Bool.not_eq_true', Bool.and_eq_false_iff,
      beq_eq_false_iff_ne] at h
    have hnil : changelogUserRegexPattern.run (c :: (d :: p ++ rest)) = [] := by
      by_contra hne
      obtain ⟨t, ht⟩ := user_run_cl _ hne
      have h1 := (List.cons.inj ht).1
      have h2 := (List.cons.inj (List.cons.inj ht).2).1
      rcases h.1 with hc | hd
      · exact hc h1
      · exact hd h2
    rw [List.cons_append, findAllSubmatch_nomatch _ c _ hnil]
    exact findAllSubmatch_clFree (d :: p) rest h.2

theorem clFree_append : ∀ (a b : List Char), clFree a = true → clFree b = true →
    clFree (a ++ b) = true
  | [], _, _, hb => hb
  | [c], [], ha, _ => ha
  | [c], d :: b, ha, hb => by
    have hc : c ≠ 'c' := by simpa [clFree] using ha
    simp only [List.cons_append, List.nil_append, clFree, Bool.and_eq_true,
      Bool.not_eq_true', Bool.and_eq_false_iff, beq_eq_false_iff_ne]
    exact ⟨Or.inl hc, hb⟩
  | c :: d :: a, b, ha, hb => by
    simp only [clFree, Bool.and_eq_true] at ha
    simp only [List.cons_append, clFree, Bool.and_eq_true]
    exact ⟨ha.1, clFree_append (d :: a) b ha.2 hb⟩

theorem clFree_digits : ∀ d : List Char, (∀ c ∈ d, isDigit c = true) → clFree d = true
  | [], _ => rfl
  | [c], h => by
    have hc : c ≠ 'c' := by
      rintro rfl
      exact absurd (h 'c' (List.mem_cons_self _ _)) (by decide)
    simpa [clFree] using hc
  | c :: e :: d, h => by
    have hc : c ≠ 'c' := by
      rintro rfl
      exact absurd (h 'c' (List.mem_cons_self _ _)) (by decide)
    simp only [clFree, Bool.and_eq_true, Bool.not_eq_true', Bool.and_eq_false_iff,
      beq_eq_false_iff_ne]
    exact ⟨Or.inl hc, clFree_digits (e :: d) fun x hx => h x (List.mem_cons_of_mem _ hx)⟩

theorem findAllSubmatch_recordLines : ∀ rs : List UserRecord, (∀ r ∈ rs, r.WellFormed) →
    findAllSubmatch changelogUserRegexPattern (recordLines rs).data 0
      = rs.map fun r => [r.line, r.id, r.index, r.idle]
  | [], _ => rfl
  | r :: rs, h => by
    obtain ⟨⟨hn, hn'⟩, ⟨hix, hix'⟩, ⟨hidl, hidl'⟩⟩ := h r (List.mem_cons_self _ _)
    have hn0 : r.number.data ≠ [] := fun e => hn (String.ext e)
    have hix0 : r.index.data ≠ [] := fun e => hix (String.ext e)
    have hidl0 : r.idle.data ≠ [] := fun e => hidl (String.ext e)
    obtain ⟨hne, hall⟩ := user_run_line r.number.data r.index.data r.idle.data
      (recordLines rs).data hn0 hn' hix0 hix' hidl0 hidl'
    have hsub := submatchAt_of_unique _ _ _ _ hne hall
    rw [take_append_sub] at hsub
    have hlen : (("cl".data ++ r.number.data ++ "   ".data ++ r.index.data ++ " (".data
          ++ r.idle.data ++ ")".data) ++ (recordLines rs).data).length
          - (recordLines rs).data.length
        = ("cl".data ++ r.number.data ++ "   ".data ++ r.index.data ++ " (".data
          ++ r.idle.data ++ ")".data).length := by
      rw [List.length_append, Nat.add_sub_cancel]
    rw [hlen] at hsub
    have hdata : (recordLines (r :: rs)).data
        = "\n".data ++ (("cl".data ++ r.number.data ++ "   ".data ++ r.index.data ++ " (".data
          ++ r.idle.data ++ ")".data) ++ (recordLines rs).data) := by
      simp [recordLines, UserRecord.line, UserRecord.id, String.data_append]
    rw [hdata, findAllSubmatch_clFree _ _ (by decide),
      findAllSubmatch_match _ _ _ _ (by simp) hsub,
      findAllSubmatch_recordLines rs fun x hx => h x (List.mem_cons_of_mem _ hx)]
    simp only [List.map_cons, List.map_nil, List.cons.injEq, and_true, true_and]
    refine ⟨String.ext ?_, String.ext ?_⟩
    · simp [UserRecord.line, UserRecord.id, String.data_append]
    · simp [UserRecord.id, String.data_append]

/-- C7: for every sequence of well-formed user records and every digit string as current
index, `regexCaptureChangelogUser` applied to the header lines followed by one line
`<id>   <index> (<idle>)` per record returns exactly one match per record, in input order,
whose whole-match text is the line and whose three groups are the id, the index and the
idle seconds; the header lines alone give no match. -/
theorem regexCaptureChangelogUser_records (currentIndex : String) (rs : List UserRecord)
    (hci : ∀ c ∈ currentIndex.data, isDigit c = true) (hrs : ∀ r ∈ rs, r.WellFormed) :
    regexCaptureChangelogUser (changelogText currentIndex rs)
      = rs.map (fun r => [r.line, r.id, r.index, r.idle])
    ∧ regexCaptureChangelogUser (changelogHeader currentIndex) = [] := by
  have hfree : clFree (changelogHeader currentIndex).data = true := by
    have hd : (changelogHeader currentIndex).data
        = "mdd.lustre-MDT0000.changelog_users=\ncurrent index: ".data
          ++ (currentIndex.data ++ "\nID    index (idle seconds)".data) := by
      simp [changelogHeader, String.data_append]
    rw [hd]
    exact clFree_append _ _ (by decide)
      (clFree_append _ _ (clFree_digits _ hci) (by decide))
  constructor
  · unfold regexCaptureChangelogUser FindAllStringSubmatch changelogText
    rw [String.data_append, findAllSubmatch_clFree _ _ hfree]
    exact findAllSubmatch_recordLines rs hrs
  · unfold regexCaptureChangelogUser FindAllStringSubmatch
    have := findAllSubmatch_clFree _ [] hfree
    rw [List.append_nil] at this
    rw [this]
    rfl

/-- Instance of C7: the header with current index 34 followed by the lines of `cl1` and
`cl2` gives the two matches of `TestChangelogUser`, in order. -/
theorem regexCaptureChangelogUser_records_witness :
    changelogText "34"
        [{ number := "1", index := "0", idle := "1725676" },
          { number := "2", index := "34", idle := "28" }]
      = "mdd.lustre-MDT0000.changelog_users=\ncurrent index: 34\nID    index (idle seconds)\ncl1   0 (1725676)\ncl2   34 (28)"
    ∧ regexCaptureChangelogUser (changelogText "34"
        [{ number := "1", index := "0", idle := "1725676" },
          { number := "2", index := "34", idle := "28" }])
      = [["cl1   0 (1725676)", "cl1", "0", "1725676"], ["cl2   34 (28)", "cl2", "34", "28"]] :=
  ⟨by decide,
    (regexCaptureChangelogUser_records "34"
      [{ number := "1", index := "0", idle := "1725676" },
        { number := "2", index := "34", idle := "28" }]
      (by decide)
      (by
        intro r hr
        simp only [List.mem_cons, List.mem_singleton, List.not_mem_nil, or_false] at hr
        rcases hr with rfl | rfl
        · exact ⟨⟨by decide, by decide⟩, ⟨by decide, by decide⟩, ⟨by decide, by decide⟩⟩
        · exact ⟨⟨by decide, by decide⟩, ⟨by decide, by decide⟩, ⟨by decide, by decide⟩⟩)).1⟩

/-! ## `parseTextFile` on a `health_check` file -/

/-- C8: for every content of a `health_check` file that is read successfully,
`parseTextFile` calls the handler exactly once, with the value 1 when the trimmed content
is `healthy` and 0 otherwise, and returns no error. -/
theorem parseTextFile_health_check (env : SysFsEnv)
    (nodeType metricType path : String) (directoryDepth : Int)
    (helpText promName nodeName content : String)
    (hElements : env.parseFileElements path directoryDepth = ("health_check", nodeName, none))
    (hRead : env.ReadFile (env.Clean path) = .ok content) :
    parseTextFile env nodeType metricType path directoryDepth helpText promName =
      ([{ nodeType := nodeType, nodeName := nodeName, name := promName,
          helpText := helpText,
          value := if TrimSpace content = "healthy" then 1 else 0 }], none) := by
  have h1 : ParseFloat (TrimSpace healthCheckHealthy) = .ok 1 := by decide
  have h0 : ParseFloat (TrimSpace healthCheckUnhealthy) = .ok 0 := by decide
  unfold parseTextFile
  rw [hElements]
  simp only [hRead, if_true]
  by_cases h : TrimSpace content = "healthy"
  · simp only [h, if_true, h1]
  · simp only [h, if_false, h0]

/-- Instance of C8: a `health_check` file with the content `healthy` and a newline gives
one call with value 1, and one with the content `NOT HEALTHY` gives one call with
value 0. -/
theorem parseTextFile_health_check_witness :
    parseTextFile
        { parseFileElements := fun _ _ => ("health_check", "lustre", none),
          Clean := fun p => p,
          ReadFile := fun _ => .ok "healthy\n" }
        "health" "health_check" "/sys/fs/lustre/health_check" 0 "help" "health_check"
      = ([{ nodeType := "health", nodeName := "lustre", name := "health_check",
            helpText := "help", value := 1 }], none)
    ∧ parseTextFile
        { parseFileElements := fun _ _ => ("health_check", "lustre", none),
          Clean := fun p => p,
          ReadFile := fun _ => .ok "NOT HEALTHY\n" }
        "health" "health_check" "/sys/fs/lustre/health_check" 0 "help" "health_check"
      = ([{ nodeType := "health", nodeName := "lustre", name := "health_check",
            helpText := "help", value := 0 }], none) :=
  ⟨parseTextFile_health_check _ _ _ _ _ _ _ "lustre" "healthy\n" rfl rfl,
    parseTextFile_health_check _ _ _ _ _ _ _ "lustre" "NOT HEALTHY\n" rfl rfl⟩

/-! ## `Update` of the `lctl` source -/

theorem updateLoop_allSucceed {σ : Type} (all : List (lustreLctlMetricCreator σ))
    (world final : σ) (out : List Metric) (h : AllSucceed all world out final) :
    ∀ ch, updateLoop all world ch = (none, ch ++ out, final) := by
  induction h with
  | nil world => intro ch; simp [updateLoop]
  | cons c rest world world1 final metricList out hcall _ ih =>
    intro ch
    simp only [updateLoop, hcall, ih, List.append_assoc]

theorem updateLoop_first_error {σ : Type} (pre : List (lustreLctlMetricCreator σ))
    (world world1 : σ) (out : List Metric) (h : AllSucceed pre world out world1)
    (k : lustreLctlMetricCreator σ) (post : List (lustreLctlMetricCreator σ))
    (metricList : List Metric) (err : Error) (world2 : σ)
    (hk : k.metricHandler.call k.lctlParam world1 = ((metricList, some err), world2)) :
    ∀ ch, updateLoop (pre ++ k :: post) world ch =
      (some (.errorString (k.metricHandler.funcName ++ " - " ++ err.text)), ch ++ out,
        world2) := by
  induction h with
  | nil world => intro ch; simp [updateLoop, hk]
  | cons c rest world world1 final metricList out hcall _ ih =>
    intro ch
    have h1 := ih hk (ch ++ metricList)
    rw [List.append_assoc] at h1
    simpa only [List.cons_append, updateLoop, hcall] using h1

theorem allSucceed_or_first_error {σ : Type} :
    ∀ (all : List (lustreLctlMetricCreator σ)) (world : σ),
      (∃ out final, AllSucceed all world out final) ∨
      (∃ pre k post out world1 metricList err world2,
        all = pre ++ k :: post ∧ AllSucceed pre world out world1 ∧
        k.metricHandler.call k.lctlParam world1 = ((metricList, some err), world2))
  | [], world => Or.inl ⟨[], world, .nil world⟩
  | c :: rest, world => by
    rcases hc : c.metricHandler.call c.lctlParam world with ⟨⟨metricList, e⟩, world1⟩
    cases e with
    | some err =>
      exact Or.inr ⟨[], c, rest, [], world, metricList, err, world1, rfl, .nil world, hc⟩
    | none =>
      rcases allSucceed_or_first_error rest world1 with
        ⟨out, final, h⟩ | ⟨pre, k, post, out, w1, ml, err, w2, rfl, h, hk⟩
      · exact Or.inl ⟨metricList ++ out, final, .cons c rest world world1 final _ _ hc h⟩
      · exact Or.inr ⟨c :: pre, k, post, metricList ++ out, w1, ml, err, w2, rfl,
          .cons c pre world world1 w1 _ _ hc h, hk⟩

/-- C10: `Update` runs the handlers in list order on the successive states of the
surroundings and sends each handler's measurements in order. If the handlers of `pre`
return without error and the next handler `k` returns the error `err`, `Update` returns the
error with the message `<name of k> - <message of err>`, has sent exactly the measurements
of `pre` (and none of those `k` may have returned), and leaves the state that `k` left,
whatever handlers follow `k`. If all handlers return without error, `Update` returns `nil`
after sending all their measurements. One of the two cases always applies. -/
theorem update_first_error {σ : Type} (s : lustreLctlSource σ) (world : σ)
    (ch : List Metric) :
    (∀ pre k post out world1 metricList err world2,
      s.metricCreator = pre ++ k :: post → AllSucceed pre world out world1 →
      k.metricHandler.call k.lctlParam world1 = ((metricList, some err), world2) →
      s.Update world ch =
        (some (.errorString (k.metricHandler.funcName ++ " - " ++ err.text)), ch ++ out,
          world2))
    ∧ (∀ out final, AllSucceed s.metricCreator world out final →
      s.Update world ch = (none, ch ++ out, final))
    ∧ ((∃ out final, AllSucceed s.metricCreator world out final) ∨
      (∃ pre k post out world1 metricList err world2,
        s.metricCreator = pre ++ k :: post ∧ AllSucceed pre world out world1 ∧
        k.metricHandler.call k.lctlParam world1 = ((metricList, some err), world2))) := by
  refine ⟨?_, ?_, allSucceed_or_first_error _ _⟩
  · intro pre k post out world1 metricList err world2 hs hpre hk
    unfold lustreLctlSource.Update
    rw [hs]
    exact updateLoop_first_error pre world world1 out hpre k post metricList err world2 hk ch
  · intro out final h
    exact updateLoop_allSucceed _ world final out h ch

/-- Instance of C10: of three handlers the second fails (while also returning a
measurement); `Update` returns its error with the handler's name in front, has sent the
measurement of the first handler only, and two handler calls have been made. -/
theorem update_first_error_witness :
    AllSucceed [sampleCreator "first" none] 0 [sampleMetric] 1
    ∧ lustreLctlSource.Update
        { metricCreator := [sampleCreator "first" none,
            sampleCreator "second" (some (.errorString "boom")),
            sampleCreator "third" none] } 0 []
      = (some (.errorString "second - boom"), [sampleMetric], 2) :=
  ⟨.cons _ _ 0 1 1 [sampleMetric] [] rfl (.nil 1),
    (update_first_error
      { metricCreator := [sampleCreator "first" none,
          sampleCreator "second" (some (.errorString "boom")),
          sampleCreator "third" none] } 0 []).1
      [sampleCreator "first" none] (sampleCreator "second" (some (.errorString "boom")))
      [sampleCreator "third" none] [sampleMetric] 1 [sampleMetric] (.errorString "boom") 2
      rfl (.cons _ _ 0 1 1 [sampleMetric] [] rfl (.nil 1)) rfl⟩

/-! ## `createMDTChangelogUsersMetrics` -/

theorem changelogUserLoop_ok (target : String) (records : List (List String))
    (users : List ChangelogUser) (h : List.Forall₂ Denotes records users) :
    ∀ metricList, changelogUserLoop target records metricList =
      (metricList ++ users.flatMap (ChangelogUser.metrics target), none) := by
  induction h with
  | nil => intro metricList; simp [changelogUserLoop]
  | cons h _ ih =>
    intro metricList
    obtain ⟨h1, h2, h3⟩ := h
    simp only [changelogUserLoop, h1, h2, h3, ih, List.flatMap_cons,
      ChangelogUser.metrics, List.append_assoc]

theorem changelogUserLoop_error (target : String) :
    ∀ (records : List (List String)) (metricList : List Metric) (err : Error),
      (changelogUserLoop target records metricList).2 = some err →
      (changelogUserLoop target records metricList).1 = []
  | [], metricList, err, h => by simp [changelogUserLoop] at h
  | fields :: records, metricList, err, h => by
    unfold changelogUserLoop at h ⊢
    cases h2 : ParseFloat (fields.getD 2 "") with
    | error e => rfl
    | ok index =>
      cases h3 : ParseFloat (fields.getD 3 "") with
      | error e => simp only [h3]
      | ok idle =>
        simp only [h2, h3] at h ⊢
        exact changelogUserLoop_error target records _ err h

/-- C1: when target extraction yields `t`, current-index extraction yields `c`, and the
matched user records denote the users `users` (their numeric fields parse), then
`createMDTChangelogUsersMetrics` returns without error the counter
`changelog_current_index` labelled `(component=mdt, target=t)` with value `c`, followed
for each user in input order by the counter `changelog_user_index` and the gauge
`changelog_user_idle_time`, both labelled `(component=mdt, target=t, id)`: `1 + 2n`
measurements for `n` users, and the single current-index measurement for none. -/
theorem createMDTChangelogUsersMetrics_ok (env : LctlEnv) (lctlParam data t : String)
    (c : Float64) (users : List ChangelogUser)
    (hData : changelogUsersData env lctlParam = .ok data)
    (hTarget : regexCaptureChangelogTarget data = (t, none))
    (hIndex : regexCaptureChangelogCurrentIndex data = (c, none))
    (hUsers : List.Forall₂ Denotes (regexCaptureChangelogUser data) users) :
    createMDTChangelogUsersMetrics env lctlParam =
        (counterMetric ["component", "target"] ["mdt", t]
            "changelog_current_index" "Changelog current index." c ::
          users.flatMap fun u =>
            [counterMetric ["component", "target", "id"] ["mdt", t, u.id]
                "changelog_user_index" "Index of registered changelog user." u.index,
              gaugeMetric ["component", "target", "id"] ["mdt", t, u.id]
                "changelog_user_idle_time"
                "Idle time in seconds of registered changelog user." u.idleSeconds],
          none)
      ∧ (createMDTChangelogUsersMetrics env lctlParam).1.length = 1 + 2 * users.length
      ∧ (users = [] → createMDTChangelogUsersMetrics env lctlParam =
          ([counterMetric ["component", "target"] ["mdt", t]
            "changelog_current_index" "Changelog current index." c], none)) := by
  have h : createMDTChangelogUsersMetrics env lctlParam =
      (counterMetric ["component", "target"] ["mdt", t]
          "changelog_current_index" "Changelog current index." c ::
        users.flatMap (ChangelogUser.metrics t), none) := by
    simp only [createMDTChangelogUsersMetrics, hData, changelogUsersMetricsOfData, hTarget,
      hIndex, changelogUserLoop_ok t _ _ hUsers, List.singleton_append]
  refine ⟨h, ?_, ?_⟩
  · rw [h]
    have hl : ∀ us : List ChangelogUser,
        (us.flatMap (ChangelogUser.metrics t)).length = 2 * us.length := by
      intro us
      induction us with
      | nil => rfl
      | cons u us ih =>
        simp only [List.flatMap_cons, List.length_append, ih, ChangelogUser.metrics,
          List.length_cons, List.length_nil]
        omega
    simp only [List.length_cons, hl]
    omega
  · intro hu
    rw [h, hu]
    rfl

/-- C2: if target extraction fails, or succeeds while current-index extraction fails,
`createMDTChangelogUsersMetrics` returns that error with the empty (nil) measurement list;
and whenever it returns an error at all, the measurement list it returns is empty. -/
theorem createMDTChangelogUsersMetrics_error (env : LctlEnv) (lctlParam : String) :
    (∀ data err, changelogUsersData env lctlParam = .ok data →
      (regexCaptureChangelogTarget data).2 = some err →
      createMDTChangelogUsersMetrics env lctlParam = ([], some err))
    ∧ (∀ data err, changelogUsersData env lctlParam = .ok data →
      (regexCaptureChangelogTarget data).2 = none →
      (regexCaptureChangelogCurrentIndex data).2 = some err →
      createMDTChangelogUsersMetrics env lctlParam = ([], some err))
    ∧ (∀ err, (createMDTChangelogUsersMetrics env lctlParam).2 = some err →
      (createMDTChangelogUsersMetrics env lctlParam).1 = []) := by
  refine ⟨?_, ?_, ?_⟩
  · intro data err hData hT
    rcases hr : regexCaptureChangelogTarget data with ⟨t, e⟩
    rw [hr] at hT
    simp only at hT
    subst hT
    simp only [createMDTChangelogUsersMetrics, hData, changelogUsersMetricsOfData, hr]
  · intro data err hData hT hI
    rcases hr : regexCaptureChangelogTarget data with ⟨t, e⟩
    rcases hi : regexCaptureChangelogCurrentIndex data with ⟨c, e2⟩
    rw [hr] at hT
    rw [hi] at hI
    simp only at hT hI
    subst hT hI
    simp only [createMDTChangelogUsersMetrics, hData, changelogUsersMetricsOfData, hr, hi]
  · intro err h
    unfold createMDTChangelogUsersMetrics at h ⊢
    cases hd : changelogUsersData env lctlParam with
    | error e => rfl
    | ok data =>
      simp only [hd] at h ⊢
      unfold changelogUsersMetricsOfData at h ⊢
      rcases hr : regexCaptureChangelogTarget data with ⟨t, _ | e⟩
      · rcases hi : regexCaptureChangelogCurrentIndex data with ⟨c, _ | e2⟩
        · simp only [hr, hi] at h ⊢
          exact changelogUserLoop_error t _ _ err h
        · simp only [hr, hi]
      · simp only [hr]

/-- Instance of C1: on the text of the tests, read from a file, the function returns the
current-index counter followed by the index counter and idle-time gauge of `cl1` and of
`cl2`, five measurements in all. -/
theorem createMDTChangelogUsersMetrics_ok_witness :
    changelogUsersData (sampleEnv testBlock) lctlParamChangelogUsers = .ok testBlock
    ∧ regexCaptureChangelogTarget testBlock = ("lustre-MDT0000", none)
    ∧ regexCaptureChangelogCurrentIndex testBlock = (34, none)
    ∧ createMDTChangelogUsersMetrics (sampleEnv testBlock) lctlParamChangelogUsers =
      ([counterMetric ["component", "target"] ["mdt", "lustre-MDT0000"]
          "changelog_current_index" "Changelog current index." 34,
        counterMetric ["component", "target", "id"] ["mdt", "lustre-MDT0000", "cl1"]
          "changelog_user_index" "Index of registered changelog user." 0,
        gaugeMetric ["component", "target", "id"] ["mdt", "lustre-MDT0000", "cl1"]
          "changelog_user_idle_time" "Idle time in seconds of registered changelog user."
          1725676,
        counterMetric ["component", "target", "id"] ["mdt", "lustre-MDT0000", "cl2"]
          "changelog_user_index" "Index of registered changelog user." 34,
        gaugeMetric ["component", "target", "id"] ["mdt", "lustre-MDT0000", "cl2"]
          "changelog_user_idle_time" "Idle time in seconds of registered changelog user."
          28], none) :=
  ⟨rfl, by decide, by decide,
    (createMDTChangelogUsersMetrics_ok (sampleEnv testBlock) lctlParamChangelogUsers
      testBlock "lustre-MDT0000" 34
      [{ id := "cl1", index := 0, idleSeconds := 1725676 },
        { id := "cl2", index := 34, idleSeconds := 28 }]
      rfl (by decide) (by decide)
      (by
        rw [show regexCaptureChangelogUser testBlock =
          [["cl1   0 (1725676)", "cl1", "0", "1725676"], ["cl2   34 (28)", "cl2", "34", "28"]]
          from by decide]
        exact .cons ⟨rfl, by decide, by decide⟩ (.cons ⟨rfl, by decide, by decide⟩ .nil))).1⟩

/-- Instance of C2: a text with a target line and no current-index line gives the
current-index error and no measurement; a text without a target gives the target error and
no measurement. -/
theorem createMDTChangelogUsersMetrics_error_witness :
    createMDTChangelogUsersMetrics
        (sampleEnv "mdd.lustre-MDT0000.changelog_users=\n\tID    index (idle seconds)")
        lctlParamChangelogUsers
      = ([], some (.errorString "no current index found for changelogs"))
    ∧ createMDTChangelogUsersMetrics (sampleEnv "mdd..changelog_users=\n\tcurrent index: 34")
        lctlParamChangelogUsers
      = ([], some (.errorString "no target found in changelogs")) :=
  ⟨(createMDTChangelogUsersMetrics_error
      (sampleEnv "mdd.lustre-MDT0000.changelog_users=\n\tID    index (idle seconds)")
      lctlParamChangelogUsers).2.1 _ _ rfl (by decide) (by decide),
    (createMDTChangelogUsersMetrics_error
      (sampleEnv "mdd..changelog_users=\n\tcurrent index: 34")
      lctlParamChangelogUsers).1 _ _ rfl (by decide)⟩

/-! ## The templates registered by `newLustreSysFsSource` -/

theorem appendItems_eq (source filter path : String) :
    ∀ (items : List lustreHelpStruct) (acc : List lustreProcMetric),
      appendItems source filter path items acc =
        acc ++ (items.filter fun item =>
          decide (filter = extended ∨ item.priorityLevel = core)).map (templateOf source path)
  | [], acc => by simp [appendItems]
  | item :: items, acc => by
    by_cases h : filter = extended ∨ item.priorityLevel = core
    · simp only [appendItems, h, if_true, appendItems_eq source filter path items,
        List.filter_cons, decide_True, List.map_cons, List.append_assoc, List.singleton_append,
        templateOf]
    · simp only [appendItems, h, if_false, appendItems_eq source filter path items,
        List.filter_cons, decide_False, Bool.false_eq_true]

theorem appendPaths_eq (source filter : String) :
    ∀ (visit : MetricMap) (acc : List lustreProcMetric),
      appendPaths source filter visit acc =
        acc ++ catalogTemplates source
          (fun item => decide (filter = extended ∨ item.priorityLevel = core)) visit
  | [], acc => by simp [appendPaths, catalogTemplates]
  | (path, items) :: visit, acc => by
    simp only [appendPaths, appendItems_eq, appendPaths_eq source filter visit,
      catalogTemplates, List.flatMap_cons, List.append_assoc]

theorem source_of_mem_catalogTemplates (source : String) (keep : lustreHelpStruct → Bool)
    (m : MetricMap) (t : lustreProcMetric) (h : t ∈ catalogTemplates source keep m) :
    t.source = source := by
  simp only [catalogTemplates, List.mem_flatMap, List.mem_map] at h
  obtain ⟨_, _, item, _, rfl⟩ := h
  rfl

/-- The templates that one category contributes to a run of `newLustreSysFsSource`. -/
theorem registered_eq (Join : List String → String) (g : Settings) (v : VisitOrders)
    (cat : Category) :
    cat.registered (newLustreSysFsSource Join g v) =
      if cat.selector g = disabled then []
      else catalogTemplates cat.source
        (fun item => decide (cat.selector g = extended ∨ item.priorityLevel = core))
        (cat.visit v) := by
  have keepAll : ∀ (src : String) (k : lustreHelpStruct → Bool) (m : MetricMap),
      (catalogTemplates src k m).filter (fun t => decide (t.source = src))
        = catalogTemplates src k m := fun src k m =>
    List.filter_eq_self.2 fun t ht => by
      simp [source_of_mem_catalogTemplates src k m t ht]
  have dropAll : ∀ (src src' : String) (k : lustreHelpStruct → Bool) (m : MetricMap),
      src ≠ src' →
      (catalogTemplates src k m).filter (fun t => decide (t.source = src')) = [] :=
    fun src src' k m hne => List.filter_eq_nil_iff.2 fun t ht => by
      simp [source_of_mem_catalogTemplates src k m t ht, hne]
  have hnew : (newLustreSysFsSource Join g v).lustreProcMetrics =
      (if g.HealthStatusEnabled = disabled then [] else catalogTemplates "health"
          (fun item => decide (g.HealthStatusEnabled = extended ∨ item.priorityLevel = core))
          v.health)
      ++ (if g.OstEnabled = disabled then [] else catalogTemplates "ost"
          (fun item => decide (g.OstEnabled = extended ∨ item.priorityLevel = core)) v.ost)
      ++ (if g.MdtEnabled = disabled then [] else catalogTemplates "mdt"
          (fun item => decide (g.MdtEnabled = extended ∨ item.priorityLevel = core)) v.mdt)
      ++ (if g.MgsEnabled = disabled then [] else catalogTemplates "mgs"
          (fun item => decide (g.MgsEnabled = extended ∨ item.priorityLevel = core)) v.mgs)
      ++ (if g.ClientEnabled = disabled then [] else catalogTemplates "client"
          (fun item => decide (g.ClientEnabled = extended ∨ item.priorityLevel = core))
          v.client) := by
    unfold newLustreSysFsSource
    simp only [LustreSysFsSource.generateHealthStatusTemplates,
      LustreSysFsSource.generateOSTMetricTemplates,
      LustreSysFsSource.generateMDTMetricTemplates,
      LustreSysFsSource.generateMGSMetricTemplates,
      LustreSysFsSource.generateClientMetricTemplates, appendPaths_eq]
    by_cases h1 : g.HealthStatusEnabled = disabled <;>
    by_cases h2 : g.OstEnabled = disabled <;>
    by_cases h3 : g.MdtEnabled = disabled <;>
    by_cases h4 : g.MgsEnabled = disabled <;>
    by_cases h5 : g.ClientEnabled = disabled <;>
    simp [h1, h2, h3, h4, h5]
  have filter_ite : ∀ (c : Prop) [Decidable c] (l : List lustreProcMetric)
      (q : lustreProcMetric → Bool),
      (if c then [] else l).filter q = if c then [] else l.filter q := by
    intro c _ l q
    by_cases hc : c <;> simp [hc]
  unfold Category.registered
  rw [hnew]
  cases cat <;>
    simp only [Category.source, Category.selector, Category.visit, List.filter_append,
      filter_ite, keepAll] <;>
    simp [dropAll]

/-- C9: for each category, when every loop of `newLustreSysFsSource` visits the entries of
its catalog map once each (in any order), the templates of that category registered are:
none when its selector is `disabled`; the templates of the catalog entries of tier `core`
when it is `core`; the templates of all catalog entries when it is `extended` (each up to
the order of registration). Hence every template of the category registered by a run with
the selector `core` is registered by every run with the selector `extended`. -/
theorem newLustreSysFsSource_templates (Join : List String → String) (h : StatsHelp)
    (g : Settings) (v : VisitOrders)
    (hv : ∀ c : Category, (c.visit v).Perm (c.catalog h)) (cat : Category) :
    (cat.selector g = disabled → cat.registered (newLustreSysFsSource Join g v) = [])
    ∧ (cat.selector g = core →
      (cat.registered (newLustreSysFsSource Join g v)).Perm (cat.coreTemplates h))
    ∧ (cat.selector g = extended →
      (cat.registered (newLustreSysFsSource Join g v)).Perm (cat.allTemplates h))
    ∧ (∀ (Join' : List String → String) (g' : Settings) (v' : VisitOrders),
      (∀ c : Category, (c.visit v').Perm (c.catalog h)) →
      cat.selector g = core → cat.selector g' = extended →
      ∀ t ∈ cat.registered (newLustreSysFsSource Join g v),
        t ∈ cat.registered (newLustreSysFsSource Join' g' v')) := by
  have hcore : cat.selector g = core →
      (cat.registered (newLustreSysFsSource Join g v)).Perm (cat.coreTemplates h) := by
    intro hs
    rw [registered_eq, hs, if_neg (by decide)]
    have hk : (fun item : lustreHelpStruct =>
        decide (core = extended ∨ item.priorityLevel = core))
        = fun item => decide (item.priorityLevel = core) := by
      funext item
      simp [show core ≠ extended by decide]
    rw [hk]
    exact List.Perm.flatMap_right _ (hv cat)
  have hext : ∀ (J : List String → String) (g2 : Settings) (v2 : VisitOrders),
      (∀ c : Category, (c.visit v2).Perm (c.catalog h)) → cat.selector g2 = extended →
      (cat.registered (newLustreSysFsSource J g2 v2)).Perm (cat.allTemplates h) := by
    intro J g2 v2 hv2 hs
    rw [registered_eq, hs, if_neg (by decide)]
    have hk : (fun item : lustreHelpStruct =>
        decide (extended = extended ∨ item.priorityLevel = core)) = fun _ => true := by
      funext item
      simp
    rw [hk]
    exact List.Perm.flatMap_right _ (hv2 cat)
  refine ⟨?_, hcore, hext Join g v hv, ?_⟩
  · intro hs
    rw [registered_eq, if_pos hs]
  · intro Join' g' v' hv' hs hs' t ht
    have h1 : t ∈ cat.coreTemplates h := (hcore hs).subset ht
    have h2 : t ∈ cat.allTemplates h := by
      simp only [Category.coreTemplates, Category.allTemplates, catalogTemplates,
        List.mem_flatMap, List.mem_map, List.mem_filter] at h1 ⊢
      obtain ⟨e, he, item, ⟨hi, _⟩, rfl⟩ := h1
      exact ⟨e, he, item, ⟨hi, trivial⟩, rfl⟩
    exact (hext Join' g' v' hv' hs').symm.subset h2

/-- Instance of C9: with every selector `core` and every catalog visited in reverse
order, the OST templates registered are, up to order, those of the OST entries of tier
`core`. -/
theorem newLustreSysFsSource_templates_witness :
    (∀ c : Category, (c.visit sampleVisit).Perm (c.catalog sampleHelp))
    ∧ (Category.ost.registered
        (newLustreSysFsSource (String.intercalate "/") (sampleSettings core) sampleVisit)).Perm
      (Category.ost.coreTemplates sampleHelp) :=
  ⟨fun c => by cases c <;> exact List.reverse_perm _,
    (newLustreSysFsSource_templates (String.intercalate "/") sampleHelp (sampleSettings core)
      sampleVisit (fun c => by cases c <;> exact List.reverse_perm _) .ost).2.1 rfl⟩

/-! ## The separators of the target id -/

/-- C11, evaluated where it fails: on the text `mddXlustre-MDT0000Ychangelog_users=` target
extraction succeeds with the target `lustre-MDT0000`, although the text does not contain
`mdd.lustre-MDT0000.changelog_users=`: the two unescaped dots of the pattern accept any
character but a newline. -/
theorem regexCaptureChangelogTarget_any_separator :
    regexCaptureChangelogTarget "mddXlustre-MDT0000Ychangelog_users="
      = ("lustre-MDT0000", none)
    ∧ ¬ ContainsDottedTarget "mddXlustre-MDT0000Ychangelog_users=" "lustre-MDT0000" := by
  refine ⟨by decide, ?_⟩
  unfold ContainsDottedTarget
  decide

/-! ## The id of a user record -/

/-- C12 as stated fails: for the alphanumeric token `reader1` the line `reader1 5 (10)`
gives no record at all, and for the alphanumeric token `xcl1` the line `xcl1 5 (10)` gives
a record with the id `cl1`. -/
theorem regexCaptureChangelogUser_alphanumeric_counterexample :
    isAlphanumericToken "reader1" = true
    ∧ regexCaptureChangelogUser (userLine "reader1" 5 10) = []
    ∧ isAlphanumericToken "xcl1" = true
    ∧ regexCaptureChangelogUser (userLine "xcl1" 5 10) = [["cl1 5 (10)", "cl1", "5", "10"]] := by
  decide

theorem toDigitsCore_ne_nil : ∀ (fuel n : Nat) (ds : List Char), ds ≠ [] →
    Nat.toDigitsCore 10 fuel n ds ≠ []
  | 0, _, _, h => h
  | fuel + 1, n, ds, _ => by
    unfold Nat.toDigitsCore
    by_cases h0 : n / 10 = 0
    · simp [h0]
    · simp only [h0, if_false]
      exact toDigitsCore_ne_nil fuel _ _ (by simp)

theorem toDigitsCore_isDigit : ∀ (fuel n : Nat) (ds : List Char),
    (∀ c ∈ ds, isDigit c = true) → ∀ c ∈ Nat.toDigitsCore 10 fuel n ds, isDigit c = true
  | 0, _, _, h => h
  | fuel + 1, n, ds, h => by
    have hd : isDigit (Nat.digitChar (n % 10)) = true := by
      have hall : ∀ m, m < 10 → isDigit (Nat.digitChar m) = true := by decide
      exact hall _ (Nat.mod_lt _ (by decide))
    have hds : ∀ c ∈ Nat.digitChar (n % 10) :: ds, isDigit c = true := by
      intro c hc
      rcases List.mem_cons.1 hc with rfl | hc
      · exact hd
      · exact h c hc
    unfold Nat.toDigitsCore
    by_cases h0 : n / 10 = 0
    · simpa [h0] using hds
    · simp only [h0, if_false]
      exact toDigitsCore_isDigit fuel _ _ hds

/-- The decimal numeral of a natural number is a non-empty string of decimal digits. -/
theorem toString_nat_digits (i : Nat) :
    (toString i).data ≠ [] ∧ ∀ c ∈ (toString i).data, isDigit c = true := by
  have hdata : (toString i).data = Nat.toDigitsCore 10 (i + 1) i [] := rfl
  rw [hdata]
  constructor
  · unfold Nat.toDigitsCore
    by_cases h0 : i / 10 = 0
    · simp [h0]
    · simp only [h0, if_false]
      exact toDigitsCore_ne_nil i _ _ (by simp)
  · exact toDigitsCore_isDigit _ _ _ (by simp)

/-- The results of the user pattern at the head of a record line whose id and index are
separated by any non-empty run `sp` of white space, followed by any text: there is one, and
all of them capture the id, the index and the idle seconds and leave the text after the
line. -/
theorem user_run_line_sep (n sp ix idl rest : List Char)
    (hn : n ≠ []) (hn' : ∀ c ∈ n, isDigit c = true)
    (hsp : sp ≠ []) (hsp' : ∀ c ∈ sp, isPerlSpace c = true)
    (hix : ix ≠ []) (hix' : ∀ c ∈ ix, isDigit c = true)
    (hidl : idl ≠ []) (hidl' : ∀ c ∈ idl, isDigit c = true) :
    changelogUserRegexPattern.run
        (("cl".data ++ n ++ sp ++ ix ++ " (".data ++ idl ++ ")".data) ++ rest) ≠ []
    ∧ ∀ x ∈ changelogUserRegexPattern.run
        (("cl".data ++ n ++ sp ++ ix ++ " (".data ++ idl ++ ")".data) ++ rest),
      x = (["cl".data ++ n, ix, idl], rest) := by
  constructor
  · have hmem : (["cl".data ++ n, ix, idl], rest) ∈ changelogUserRegexPattern.run
        (("cl".data ++ n ++ sp ++ ix ++ " (".data ++ idl ++ ")".data) ++ rest) :=
      (mem_run _ _ _ _).2 ⟨_, rfl, (user_matches _ _).2
        ⟨n, sp, ix, idl, hn, hn', hsp, hsp', hix, hix', hidl, hidl', rfl, rfl⟩⟩
    exact List.ne_nil_of_mem hmem
  · rintro ⟨caps, rest'⟩ hx
    obtain ⟨w, hw, hm⟩ := (mem_run _ _ _ _).1 hx
    obtain ⟨d1, sp2, d2, d3, hd1, hd1', hsp2, hsp2', hd2, hd2', hd3, hd3', rfl, rfl⟩ :=
      (user_matches _ _).1 hm
    have hw' : "cl".data ++ (n ++ (sp ++ (ix ++ (" (".data ++ (idl ++ (")".data ++ rest))))))
        = "cl".data ++ (d1 ++ (sp2 ++ (d2 ++ (" (".data ++ (d3 ++ (")".data ++ rest')))))) := by
      simpa only [List.append_assoc] using hw
    have h1 := List.append_cancel_left hw'
    have parenNoDigit : ∀ c ∈ " (".data, isDigit c = false := by decide
    have closeNoDigit : ∀ c ∈ ")".data, isDigit c = false := by decide
    obtain ⟨e1, h2⟩ := run_split_unique isDigit n d1 _ _ hn' hd1'
      (fun c t h => isDigit_false_of_isPerlSpace c
        (hsp' c (head_mem_of_append _ _ hsp c t h)))
      (fun c t h => isDigit_false_of_isPerlSpace c
        (hsp2' c (head_mem_of_append _ _ hsp2 c t h))) h1
    obtain ⟨e2, h3⟩ := run_split_unique isPerlSpace sp sp2 _ _ hsp' hsp2'
      (fun c t h => isPerlSpace_false_of_isDigit c
        (hix' c (head_mem_of_append _ _ hix c t h)))
      (fun c t h => isPerlSpace_false_of_isDigit c
        (hd2' c (head_mem_of_append _ _ hd2 c t h))) h2
    obtain ⟨e3, h4⟩ := run_split_unique isDigit ix d2 _ _ hix' hd2'
      (fun c t h => parenNoDigit c (head_mem_of_append _ _ (by decide) c t h))
      (fun c t h => parenNoDigit c (head_mem_of_append _ _ (by decide) c t h)) h3
    have h5 := List.append_cancel_left h4
    obtain ⟨e4, h6⟩ := run_split_unique isDigit idl d3 _ _ hidl' hd3'
      (fun c t h => closeNoDigit c (head_mem_of_append _ _ (by decide) c t h))
      (fun c t h => closeNoDigit c (head_mem_of_append _ _ (by decide) c t h)) h5
    have h7 := List.append_cancel_left h6
    rw [← e1, ← e3, ← e4, h7]

/-- C12 as amended: for every id `u` made of `cl` followed by one or more decimal digits and
all natural numbers `i` and `s`, `regexCaptureChangelogUser` applied to the single line
`u i (s)` returns exactly one record, whose whole-match text is the line and whose three
groups are `u` and the decimal numerals of `i` and of `s`. -/
theorem regexCaptureChangelogUser_single_line (number : String) (hnumber : number ≠ "")
    (hnumber' : ∀ c ∈ number.data, isDigit c = true) (i s : Nat) :
    regexCaptureChangelogUser (userLine ("cl" ++ number) i s)
      = [[userLine ("cl" ++ number) i s, "cl" ++ number, toString i, toString s]] := by
  have hn0 : number.data ≠ [] := fun e => hnumber (String.ext e)
  obtain ⟨hi, hi'⟩ := toString_nat_digits i
  obtain ⟨hs, hs'⟩ := toString_nat_digits s
  obtain ⟨hne, hall⟩ := user_run_line_sep number.data " ".data (toString i).data
    (toString s).data [] hn0 hnumber' (by decide) (by decide) hi hi' hs hs'
  have hsub := submatchAt_of_unique _ _ _ _ hne hall
  rw [take_append_sub] at hsub
  simp only [List.length_nil, Nat.sub_zero, List.append_nil] at hsub
  have hdata : (userLine ("cl" ++ number) i s).data
      = ("cl".data ++ number.data ++ " ".data ++ (toString i).data ++ " (".data
        ++ (toString s).data ++ ")".data) ++ [] := by
    simp only [userLine, String.data_append, List.append_nil]
  unfold regexCaptureChangelogUser FindAllStringSubmatch
  rw [hdata, findAllSubmatch_match _ _ [] _ (by simp) (by simpa using hsub)]
  simp only [findAllSubmatch, List.map_cons, List.map_nil, List.cons.injEq, and_true]
  refine ⟨String.ext ?_, String.ext ?_⟩
  · simp [userLine, String.data_append]
  · simp [String.data_append]

/-- Instance of C12 as amended: the line `cl7 5 (10)` gives the one record with the id
`cl7`, the index `5` and the idle seconds `10`. -/
theorem regexCaptureChangelogUser_single_line_witness :
    "7" ≠ "" ∧ (∀ c ∈ "7".data, isDigit c = true)
    ∧ regexCaptureChangelogUser "cl7 5 (10)" = [["cl7 5 (10)", "cl7", "5", "10"]] :=
  ⟨by decide, by decide, regexCaptureChangelogUser_single_line "7" (by decide) (by decide) 5 10⟩

/-! ## The target label of the measurements -/

/-- A returned match starts at the leftmost position at which the expression matches. -/
theorem findSubmatch_some_leftmost (r : Re) :
    ∀ (s : List Char) (m : List String), findSubmatch r s = some m →
      ∃ a b n, s = a ++ b ∧ submatchAt r b = some (m, n) ∧
        ∀ a1 a2, a = a1 ++ a2 → a2 ≠ [] → r.run (a2 ++ b) = []
  | [], m, h => by
    simp only [findSubmatch, Option.map_eq_some', Prod.exists, exists_and_right,
      exists_eq_right] at h
    obtain ⟨n, hn⟩ := h
    exact ⟨[], [], n, rfl, hn, fun a1 a2 ha hne =>
      absurd (List.append_eq_nil.1 ha.symm).2 hne⟩
  | c :: t, m, h => by
    unfold findSubmatch at h
    cases hs : submatchAt r (c :: t) with
    | some x =>
      simp only [hs, Option.some.injEq] at h
      refine ⟨[], c :: t, x.2, rfl, ?_, fun a1 a2 ha hne =>
        absurd (List.append_eq_nil.1 ha.symm).2 hne⟩
      rw [hs, ← h]
    | none =>
      simp only [hs] at h
      obtain ⟨a, b, n, hab, hsub, hleft⟩ := findSubmatch_some_leftmost r t m h
      refine ⟨c :: a, b, n, by rw [hab]; rfl, hsub, ?_⟩
      intro a1 a2 ha hne
      cases a1 with
      | nil =>
        simp only [List.nil_append] at ha
        rw [← ha, List.cons_append, ← hab]
        exact (submatchAt_eq_none r _).1 hs
      | cons d a1 =>
        simp only [List.cons_append, List.cons.injEq] at ha
        exact hleft a1 a2 ha.2 hne

theorem targetMatchAt_iff (s t : List Char) :
    TargetMatchAt s t ↔ ∃ rest, ([t], rest) ∈ changelogTargetRegexPattern.run s := by
  constructor
  · rintro ⟨x, wd, dg, y, post, hx, hy, hwd, hwd', hdg, hdg', rfl, rfl⟩
    exact ⟨post, (mem_run _ _ _ _).2 ⟨_, rfl, (target_matches _ _).2
      ⟨x, wd, dg, y, hx, hy, hwd, hwd', hdg, hdg', rfl, rfl⟩⟩⟩
  · rintro ⟨rest, hmem⟩
    obtain ⟨w, rfl, hm⟩ := (mem_run _ _ _ _).1 hmem
    obtain ⟨x, wd, dg, y, hx, hy, hwd, hwd', hdg, hdg', rfl, hcaps⟩ :=
      (target_matches _ _).1 hm
    have ht : t = wd ++ "-MDT".data ++ dg := List.head_eq_of_cons_eq hcaps
    exact ⟨x, wd, dg, y, rest, hx, hy, hwd, hwd', hdg, hdg', ht, by rw [ht]⟩

/-- A successful target extraction returns the group of a match that starts at the leftmost
position of the text at which the target pattern matches. -/
theorem regexCaptureChangelogTarget_leftmost (text t : String)
    (h : regexCaptureChangelogTarget text = (t, none)) :
    ∃ pre rest, text.data = pre ++ rest ∧ TargetMatchAt rest t.data ∧
      ∀ k, k < pre.length → ∀ t', ¬ TargetMatchAt (text.data.drop k) t' := by
  unfold regexCaptureChangelogTarget FindStringSubmatch at h
  cases hf : findSubmatch changelogTargetRegexPattern text.data with
  | none =>
    rw [hf] at h
    exact absurd (congrArg Prod.snd h) (by simp)
  | some m =>
    obtain ⟨a, b, n, hab, hsub, hleft⟩ := findSubmatch_some_leftmost _ _ _ hf
    obtain ⟨caps, rest, hmem, hm, -⟩ := submatchAt_eq_some _ _ _ _ hsub
    obtain ⟨w, hw, hmatch⟩ := (mem_run _ _ _ _).1 hmem
    obtain ⟨x, wd, dg, y, -, -, -, -, -, -, -, hcaps⟩ := (target_matches _ _).1 hmatch
    have ht : t = String.mk (wd ++ "-MDT".data ++ dg) := by
      rw [hf, hm, hcaps] at h
      simp only [List.map_cons, List.map_nil, List.length_cons, List.length_nil,
        if_true] at h
      exact (congrArg Prod.fst h).symm
    refine ⟨a, b, hab, ?_, ?_⟩
    · rw [ht]
      exact (targetMatchAt_iff _ _).2 ⟨rest, hcaps ▸ hmem⟩
    · intro k hk t' hat
      have hsplit : a = a.take k ++ a.drop k := (List.take_append_drop k a).symm
      have hne : a.drop k ≠ [] := by
        intro hnil
        have := congrArg List.length hnil
        simp only [List.length_drop, List.length_nil] at this
        omega
      have hrun := hleft _ _ hsplit hne
      have hdrop : text.data.drop k = a.drop k ++ b := by
        rw [hab, List.drop_append_of_le_length (Nat.le_of_lt hk)]
      rw [hdrop] at hat
      obtain ⟨rest', hmem'⟩ := (targetMatchAt_iff _ _).1 hat
      rw [hrun] at hmem'
      exact absurd hmem' (List.not_mem_nil _)

theorem first_occurrence_unique {c : Char} :
    ∀ (u u' v v' : List Char), u ++ c :: v = u' ++ c :: v' → c ∉ u → c ∉ u' → u = u'
  | [], [], _, _, _, _, _ => rfl
  | [], d :: u', v, v', h, _, hc' => by
    simp only [List.nil_append, List.cons_append, List.cons.injEq] at h
    exact absurd (List.mem_cons.2 (Or.inl h.1)) hc'
  | a :: u, [], v, v', h, hc, _ => by
    simp only [List.nil_append, List.cons_append, List.cons.injEq] at h
    exact absurd (List.mem_cons.2 (Or.inl h.1.symm)) hc
  | a :: u, d :: u', v, v', h, hc, hc' => by
    simp only [List.cons_append, List.cons.injEq] at h
    rw [h.1, first_occurrence_unique u u' v v' h.2
      (fun hm => hc (List.mem_cons_of_mem _ hm)) (fun hm => hc' (List.mem_cons_of_mem _ hm))]

/-- A group of the target pattern cannot be continued to a longer group of a match with
the same start: the continuation `a` would have to cover `changelog_users`, and then would
not end in a digit. -/
theorem target_group_no_extension (a p1 p2 : List Char) (y1 y2 d : Char) (init : List Char)
    (ha : a = init ++ [d]) (hd : isDigit d = true) (hW : ∀ c ∈ a, c ≠ '=')
    (h : y1 :: ("changelog_users".data ++ '=' :: p1)
      = a ++ y2 :: ("changelog_users".data ++ '=' :: p2)) : False := by
  cases a with
  | nil => exact absurd ha.symm (by simp)
  | cons z a2 =>
    have h : "changelog_users".data ++ '=' :: p1
        = a2 ++ y2 :: ("changelog_users".data ++ '=' :: p2) := (List.cons.inj h).2
    have hnot : '=' ∉ "changelog_users".data := by decide
    have hW2 : '=' ∉ a2 := fun hm => hW '=' (List.mem_cons_of_mem _ hm) rfl
    by_cases hy : y2 = '='
    · rw [hy] at h
      have e := first_occurrence_unique _ _ _ _ h hnot hW2
      have hlast : init ++ [d] = (z :: "changelog_user".data) ++ ['s'] := by
        rw [← ha, ← e]; rfl
      have hd' := (List.append_inj' hlast rfl).2
      rw [(List.cons.inj hd').1] at hd
      exact absurd hd (by decide)
    · have h' : "changelog_users".data ++ '=' :: p1
          = (a2 ++ y2 :: "changelog_users".data) ++ '=' :: p2 := by
        rw [h, List.append_assoc]; rfl
      have hnot2 : '=' ∉ a2 ++ y2 :: "changelog_users".data := by
        intro hm
        rcases List.mem_append.1 hm with hm | hm
        · exact hW2 hm
        · rcases List.mem_cons.1 hm with hm | hm
          · exact hy hm.symm
          · exact hnot hm
      have e := congrArg List.length (first_occurrence_unique _ _ _ _ h' hnot hnot2)
      simp only [List.length_append, List.length_cons] at e
      omega

/-- All matches of the target pattern that start at the head of a text have the same
group. -/
theorem targetMatchAt_unique (s t1 t2 : List Char) (h1 : TargetMatchAt s t1)
    (h2 : TargetMatchAt s t2) : t1 = t2 := by
  have hlast : ∀ (s t : List Char), TargetMatchAt s t →
      (∀ c ∈ t, c ≠ '=') ∧ ∀ a0 a, t = a0 ++ a → a ≠ [] →
        ∃ init d, a = init ++ [d] ∧ isDigit d = true := by
    rintro s t ⟨x, wd, dg, y, post, -, -, -, hwd', hdg, hdg', rfl, -⟩
    constructor
    · intro c hc
      simp only [List.mem_append] at hc
      rcases hc with (hc | hc) | hc
      · exact isWordDigitHyphen_ne_eq c (hwd' c hc)
      · rintro rfl
        exact absurd hc (by decide)
      · exact isWordDigitHyphen_ne_eq c (isWordDigitHyphen_of_isDigit c (hdg' c hc))
    · intro a0 a ht hne
      rcases List.eq_nil_or_concat' a with rfl | ⟨init, d, rfl⟩
      · exact absurd rfl hne
      · rcases List.eq_nil_or_concat' dg with rfl | ⟨dinit, dl, rfl⟩
        · exact absurd rfl hdg
        · have he : (wd ++ "-MDT".data ++ dinit) ++ [dl] = (a0 ++ init) ++ [d] := by
            simpa only [List.append_assoc] using ht
          have hdl := (List.append_inj' he rfl).2
          refine ⟨init, d, rfl, ?_⟩
          rw [← (List.cons.inj hdl).1]
          exact hdg' dl (by simp)
  obtain ⟨hW1, hl1⟩ := hlast s t1 h1
  obtain ⟨hW2, hl2⟩ := hlast s t2 h2
  obtain ⟨x1, -, -, y1, post1, -, -, -, -, -, -, -, hs1⟩ := h1
  obtain ⟨x2, -, -, y2, post2, -, -, -, -, -, -, -, hs2⟩ := h2
  have heq : "mdd".data ++ (x1 :: (t1 ++ y1 :: ("changelog_users".data ++ '=' :: post1)))
      = "mdd".data ++ (x2 :: (t2 ++ y2 :: ("changelog_users".data ++ '=' :: post2))) := by
    have e := hs1.symm.trans hs2
    simpa using e
  have h3 := (List.cons.inj (List.append_cancel_left heq)).2
  rcases List.append_eq_append_iff.1 h3 with ⟨a, ht, ha⟩ | ⟨a, ht, ha⟩
  · by_cases hne : a = []
    · rw [ht, hne, List.append_nil]
    · obtain ⟨init, d, hinit, hd⟩ := hl2 t1 a ht hne
      exact absurd (target_group_no_extension a post1 post2 y1 y2 d init hinit hd
        (fun c hc => hW2 c (by rw [ht]; exact List.mem_append_right _ hc)) ha) id
  · by_cases hne : a = []
    · rw [ht, hne, List.append_nil]
    · obtain ⟨init, d, hinit, hd⟩ := hl1 t2 a ht hne
      exact absurd (target_group_no_extension a post2 post1 y2 y1 d init hinit hd
        (fun c hc => hW1 c (by rw [ht]; exact List.mem_append_right _ hc)) ha) id

/-- When the loop over the user records returns no error, every record denotes a user and
the loop has appended the two measurements of each user, in order. -/
theorem changelogUserLoop_success (target : String) :
    ∀ (records : List (List String)) (metricList : List Metric),
      (changelogUserLoop target records metricList).2 = none →
      ∃ users, List.Forall₂ Denotes records users ∧
        changelogUserLoop target records metricList
          = (metricList ++ users.flatMap (ChangelogUser.metrics target), none)
  | [], metricList, _ => ⟨[], .nil, by simp [changelogUserLoop]⟩
  | fields :: records, metricList, h => by
    unfold changelogUserLoop at h
    cases h2 : ParseFloat (fields.getD 2 "") with
    | error e =>
      rw [h2] at h
      exact absurd h (by simp)
    | ok index =>
      cases h3 : ParseFloat (fields.getD 3 "") with
      | error e =>
        rw [h2, h3] at h
        exact absurd h (by simp)
      | ok idle =>
        simp only [h2, h3] at h
        obtain ⟨users, hden, hloop⟩ := changelogUserLoop_success target records _ h
        refine ⟨{ id := fields.getD 1 "", index := index, idleSeconds := idle } :: users,
          .cons ⟨rfl, h2, h3⟩ hden, ?_⟩
        conv => lhs; unfold changelogUserLoop
        simp only [h2, h3, hloop, List.flatMap_cons, ChangelogUser.metrics,
          List.append_assoc]

/-- The shape of a successful result of `createMDTChangelogUsersMetrics`: the current-index
counter labelled with the extracted target, followed by the measurements of the users. -/
theorem createMDTChangelogUsersMetrics_success (env : LctlEnv) (lctlParam data : String)
    (hData : changelogUsersData env lctlParam = .ok data)
    (hOk : (createMDTChangelogUsersMetrics env lctlParam).2 = none) :
    (regexCaptureChangelogTarget data).2 = none ∧
    ∃ users : List ChangelogUser, (createMDTChangelogUsersMetrics env lctlParam).1
      = counterMetric ["component", "target"] ["mdt", (regexCaptureChangelogTarget data).1]
          "changelog_current_index" "Changelog current index."
          (regexCaptureChangelogCurrentIndex data).1
        :: users.flatMap (ChangelogUser.metrics (regexCaptureChangelogTarget data).1) := by
  unfold createMDTChangelogUsersMetrics at hOk ⊢
  simp only [hData] at hOk ⊢
  unfold changelogUsersMetricsOfData at hOk ⊢
  rcases hr : regexCaptureChangelogTarget data with ⟨t, _ | e⟩
  · rcases hi : regexCaptureChangelogCurrentIndex data with ⟨c, _ | e2⟩
    · simp only [hr, hi] at hOk ⊢
      obtain ⟨users, -, hloop⟩ := changelogUserLoop_success t _ _ hOk
      exact ⟨trivial, users, by rw [hloop]; rfl⟩
    · simp only [hr, hi] at hOk
      exact absurd hOk (by simp)
  · simp only [hr] at hOk
    exact absurd hOk (by simp)

/-- C13: whenever `createMDTChangelogUsersMetrics` succeeds on a text, every returned
measurement carries the target label returned by target extraction; exactly one returned
measurement is named `changelog_current_index`; and that target is the leftmost target
matched in the text: the text splits into `pre` and `rest` such that the target pattern
matches at no position inside `pre`, and the groups of its matches at the head of `rest`
are exactly that one target. Targets of later blocks of the text play no part. -/
theorem createMDTChangelogUsersMetrics_first_target (env : LctlEnv)
    (lctlParam data : String)
    (hData : changelogUsersData env lctlParam = .ok data)
    (hOk : (createMDTChangelogUsersMetrics env lctlParam).2 = none) :
    (∀ m ∈ (createMDTChangelogUsersMetrics env lctlParam).1,
      m.label "target" = some (regexCaptureChangelogTarget data).1)
    ∧ ((createMDTChangelogUsersMetrics env lctlParam).1.filter
        fun m => decide (m.name = "changelog_current_index")).length = 1
    ∧ ∃ pre rest, data.data = pre ++ rest
      ∧ (∀ k, k < pre.length → ∀ t, ¬ TargetMatchAt (data.data.drop k) t)
      ∧ ∀ t, TargetMatchAt rest t ↔ t = (regexCaptureChangelogTarget data).1.data := by
  obtain ⟨hT, users, hms⟩ := createMDTChangelogUsersMetrics_success env lctlParam data hData hOk
  have hmem : ∀ (t : String) (us : List ChangelogUser),
      ∀ m ∈ us.flatMap (ChangelogUser.metrics t),
        m.label "target" = some t ∧ m.name ≠ "changelog_current_index" := by
    intro t us m hm
    simp only [List.mem_flatMap, ChangelogUser.metrics, List.mem_cons, List.mem_singleton,
      List.not_mem_nil, or_false] at hm
    obtain ⟨u, -, rfl | rfl⟩ := hm
    · exact ⟨rfl, show "changelog_user_index" ≠ "changelog_current_index" by decide⟩
    · exact ⟨rfl, show "changelog_user_idle_time" ≠ "changelog_current_index" by decide⟩
  refine ⟨?_, ?_, ?_⟩
  · intro m hm
    rw [hms] at hm
    rcases List.mem_cons.1 hm with rfl | hm
    · rfl
    · exact (hmem _ _ m hm).1
  · rw [hms, List.filter_cons]
    have hnil : (users.flatMap (ChangelogUser.metrics (regexCaptureChangelogTarget data).1)).filter
        (fun m => decide (m.name = "changelog_current_index")) = [] :=
      List.filter_eq_nil_iff.2 fun m hm => by
        simpa using (hmem _ _ m hm).2
    rw [hnil]
    rfl
  · have hr : regexCaptureChangelogTarget data = ((regexCaptureChangelogTarget data).1, none) :=
      Prod.ext rfl hT
    obtain ⟨pre, rest, hsplit, hat, hleft⟩ := regexCaptureChangelogTarget_leftmost _ _ hr
    refine ⟨pre, rest, hsplit, hleft, fun t => ⟨fun h => ?_, fun h => ?_⟩⟩
    · exact targetMatchAt_unique rest _ _ h hat
    · rw [h]; exact hat

set_option maxRecDepth 4000 in
/-- Instance of C13: on a text with the blocks of the targets `lustre-MDT0000` and
`lustre-MDT0001`, the function succeeds, all five measurements, those of the user `cl2`
of the second block included, are labelled `lustre-MDT0000`, and the one current-index
measurement has the value 34 of the first block. -/
theorem createMDTChangelogUsersMetrics_first_target_witness :
    changelogUsersData (sampleEnv twoTargetsBlock) lctlParamChangelogUsers = .ok twoTargetsBlock
    ∧ (createMDTChangelogUsersMetrics (sampleEnv twoTargetsBlock) lctlParamChangelogUsers).2
      = none
    ∧ (∀ m ∈ (createMDTChangelogUsersMetrics (sampleEnv twoTargetsBlock)
        lctlParamChangelogUsers).1, m.label "target" = some "lustre-MDT0000")
    ∧ (createMDTChangelogUsersMetrics (sampleEnv twoTargetsBlock)
        lctlParamChangelogUsers).1.map (fun m => (m.name, m.labelValues, m.value))
      = [("changelog_current_index", ["mdt", "lustre-MDT0000"], 34),
        ("changelog_user_index", ["mdt", "lustre-MDT0000", "cl1"], 0),
        ("changelog_user_idle_time", ["mdt", "lustre-MDT0000", "cl1"], 1725676),
        ("changelog_user_index", ["mdt", "lustre-MDT0000", "cl2"], 5),
        ("changelog_user_idle_time", ["mdt", "lustre-MDT0000", "cl2"], 3)] :=
  ⟨rfl, by decide,
    (createMDTChangelogUsersMetrics_first_target (sampleEnv twoTargetsBlock)
      lctlParamChangelogUsers twoTargetsBlock rfl (by decide)).1,
    by decide⟩

end LustreExporter
